import Mathlib

/-!
# Verification of the deno-no-sync-in-async-lint analyzer

Shallow embedding of the blocking-propagation analysis of the
`sigmaSd/deno-no-sync-in-async-lint` repository.  The repository holds several
variants of the same core; each namespace below embeds one source file:

* `Analyzer`     — `src/analyzer.ts` (class `TypeScriptAnalyzer`: unguarded
  `markAsBlocking`, `analyzeSourceFile` visitor, `normalizeImportPath`,
  `isBlockingFunction`).
* `EslintConfig` — `src/eslint.config.ts` (`propagateBlockingStatus` fixed
  point, `normalizeImportPath` URL-based variant).
* `P01`          — `src/unnamed/part_000` / `src/unnamed/part_001`
  (guarded `markAsBlocking` with location inheritance, location-aware
  visitor, `analyzeFile` sync traversal of `part_001`).
* `PluginTs`     — `src/plugin.ts` (recursive memoizing `isBlockingFunction`
  and the `CallExpression` rule handler).

JavaScript `Map`s are modelled as association lists with insertion-order
iteration and `set` = update-in-place-or-append; JavaScript `Set`s of strings
as lists with append-if-absent insertion (`insertName`) or `Finset String`
where only membership and size matter.  Unbounded recursion in the source is
modelled with a fuel parameter counting recursion depth: `none` means the
fuel budget is exhausted, and genuine non-termination is "out of fuel for
every budget".
-/

/-- JS `Set.add` on a set represented as a duplicate-free list: appends the
element unless present. -/
def insertName (x : String) (l : List String) : List String :=
  if x ∈ l then l else l ++ [x]

/-- `String.prototype.endsWith`, computed on character lists so that proofs
can evaluate it. -/
def strEndsWith (s suffix : String) : Bool :=
  suffix.toList.isSuffixOf s.toList

/-- `String.prototype.startsWith`, computed on character lists. -/
def strStartsWith (s prefixStr : String) : Bool :=
  prefixStr.toList.isPrefixOf s.toList

/-- Split on `/` (the behavior of `splitOn "/"`), computed on character
lists. -/
def splitSlashAux : List Char → List Char → List String
  | [], acc => [String.mk acc.reverse]
  | c :: rest, acc =>
    if c = '/' then String.mk acc.reverse :: splitSlashAux rest []
    else splitSlashAux rest (c :: acc)

/-- Split a path string on `/`. -/
def splitSlash (s : String) : List String :=
  splitSlashAux s.toList []

/-- JS `Map.get`: first binding of a key in an association list. -/
def lookupA {α : Type} : List (String × α) → String → Option α
  | [], _ => none
  | (k, v) :: rest, key => if k = key then some v else lookupA rest key

/-- JS `Map.set`: replace the value of an existing key in place, otherwise
append the new binding. -/
def setA {α : Type} : List (String × α) → String → α → List (String × α)
  | [], key, v => [(key, v)]
  | (k, w) :: rest, key, v =>
    if k = key then (k, v) :: rest else (k, w) :: setA rest key v

/-! ## The `src/analyzer.ts` variant -/

namespace Analyzer

/-- The slice of `AnalyzerState` that `analyzeSourceFile`, `addFunctionCall`
and `markAsBlocking` read or write (`importMap`, `analyzedFiles` and
`remoteModules` are only touched by the import-handling code). -/
structure AState where
  blockingFunctions : List String
  functionCalls : List (String × List String)
deriving DecidableEq

/-- `addFunctionCall`: ensure the caller has an entry, then add the callee to
its set. -/
def addFunctionCall (caller callee : String) (st : AState) : AState :=
  match lookupA st.functionCalls caller with
  | some callees =>
    let fc := setA st.functionCalls caller (insertName callee callees)
    { st with functionCalls := fc }
  | none =>
    { st with functionCalls := st.functionCalls ++ [(caller, [callee])] }

/-- Loop body of `markAsBlocking`: iterate the entries of `functionCalls`
and recurse (through `rec`) into every caller of `funcName`.  The recursion
itself is supplied as `rec` so that the fuel lives only in
`markAsBlocking`. -/
def markLoopF (rec : String → AState → Option AState) (funcName : String) :
    List (String × List String) → AState → Option AState
  | [], st => some st
  | (caller, callees) :: rest, st =>
    if funcName ∈ callees then
      match rec caller st with
      | none => none
      | some st' => markLoopF rec funcName rest st'
    else markLoopF rec funcName rest st

/-- `markAsBlocking` of `src/analyzer.ts`: add the name to the blocking set
and recursively mark every caller.  The source has NO visited guard; the
fuel parameter bounds the recursion depth, `none` = depth budget exhausted
(a stack overflow in the source). -/
def markAsBlocking : Nat → String → AState → Option AState
  | 0, _, _ => none
  | n + 1, funcName, st =>
    let st := { st with blockingFunctions := insertName funcName st.blockingFunctions }
    markLoopF (markAsBlocking n) funcName st.functionCalls st

/-- `markAsBlocking funcName` terminates (returns within some finite recursion
depth) from the given state. -/
def markTerminates (funcName : String) (st : AState) : Prop :=
  ∃ n, (markAsBlocking n funcName st).isSome = true

/-- `isBlockingFunction`: plain membership in the blocking set. -/
def isBlockingFunction (st : AState) (name : String) : Bool :=
  name ∈ st.blockingFunctions

/-! ### The syntax tree consumed by `analyzeSourceFile`

Only the node shapes the visitor inspects are distinguished; everything else
is `otherNode` with children.  Sub-expressions of a callee are never matched
by any visitor branch, so the callee shape is summarised in `Callee`. -/

/-- A declaration-name node: an identifier or some other name form
(`ts.isIdentifier(node.name)` is false). -/
inductive FName where
  | id (s : String)
  | nonId
deriving DecidableEq

/-- Shape of `node.expression` of a call expression, as far as the visitor
inspects it: a bare identifier, a property access (with the object's
identifier text when the object is an identifier, and the property's
identifier text when the property name is an identifier), or anything
else. -/
inductive Callee where
  | identC (name : String)
  | member (obj : Option String) (prop : Option String)
  | otherC
deriving DecidableEq

/-- A 0-based source position (`getLineAndCharacterOfPosition`). -/
structure Pos where
  line : Nat
  col : Nat
deriving DecidableEq

/-- Syntax-tree nodes, restricted to the shapes the visitors distinguish. -/
inductive Node where
  | funcDecl (name : Option FName) (pos : Pos) (children : List Node)
  | methodDecl (name : Option FName) (pos : Pos) (children : List Node)
  /-- A variable declaration with identifier name whose initializer is a
  function or arrow expression. -/
  | varDeclFun (name : String) (pos : Pos) (children : List Node)
  | callExpr (callee : Callee) (children : List Node)
  | otherNode (children : List Node)

/-- Visitor state of `analyzeSourceFile`: the analyzer state, the file-local
`blockingFuncs` set, and the `currentFunction` variable. -/
structure VState where
  ast : AState
  fileBlocking : List String
  cur : Option String
deriving DecidableEq

/-- Fold a visitor over a child list, stopping at fuel exhaustion.  The
visitor-state type is generic so the location-aware visitor of
`part_000`/`part_001` can reuse it. -/
def visitListF {σ : Type} (recv : Node → σ → Option σ) :
    List Node → σ → Option σ
  | [], v => some v
  | nd :: rest, v =>
    match recv nd v with
    | none => none
    | some v' => visitListF recv rest v'

/-- Children of a node (`ts.forEachChild`). -/
def Node.children : Node → List Node
  | .funcDecl _ _ cs => cs
  | .methodDecl _ _ cs => cs
  | .varDeclFun _ _ cs => cs
  | .callExpr _ cs => cs
  | .otherNode cs => cs

/-- Entry action: the `currentFunction` update on entering a node
(`analyzeSourceFile`, first two branches of `visit`). -/
def enterCur (node : Node) (cur : Option String) : Option String :=
  match node with
  | .funcDecl (some (.id s)) _ _ => some s
  | .methodDecl (some (.id s)) _ _ => some s
  | .varDeclFun s _ _ => some s
  | _ => cur

/-- Exit action: `currentFunction` is set to `undefined` when leaving a
function or method declaration that has a name (of any form). -/
def exitCur (node : Node) (cur : Option String) : Option String :=
  match node with
  | .funcDecl (some _) _ _ => none
  | .methodDecl (some _) _ _ => none
  | _ => cur

/-- The call-expression handling of `visit` when `currentFunction = f`:
Deno.*Sync seeds the blocking sets via `markAsBlocking`; a bare identifier
records a call edge and, when the callee is already blocking, marks the
caller; a property access with identifier property records a call edge by
member name only. -/
def handleCall (fuel : Nat) (f : String) (callee : Callee)
    (ast : AState) (fileBlocking : List String) :
    Option (AState × List String) :=
  match callee with
  | .member (some obj) (some prop) =>
    if obj = "Deno" ∧ strEndsWith prop "Sync" then
      match markAsBlocking fuel f ast with
      | none => none
      | some ast' => some (ast', insertName f fileBlocking)
    else some (addFunctionCall f prop ast, fileBlocking)
  | .member none (some prop) =>
    some (addFunctionCall f prop ast, fileBlocking)
  | .member _ none => some (ast, fileBlocking)
  | .identC name =>
    let ast1 := addFunctionCall f name ast
    if name ∈ ast1.blockingFunctions then
      match markAsBlocking fuel f ast1 with
      | none => none
      | some ast' => some (ast', fileBlocking)
    else some (ast1, fileBlocking)
  | .otherC => some (ast, fileBlocking)

/-- The call-expression branch of `visit`, guarded by `currentFunction`
being set (`if (currentFunction) { if (ts.isCallExpression(node)) ... }`). -/
def callSiteStep (fuel : Nat) (node : Node) (cur1 : Option String)
    (ast : AState) (fb : List String) : Option (AState × List String) :=
  match cur1, node with
  | some f, .callExpr c _ => handleCall fuel f c ast fb
  | _, _ => some (ast, fb)

/-- The recursive `visit` of `analyzeSourceFile` (src/analyzer.ts).  Fuel
bounds the tree depth plus the `markAsBlocking` recursion depth. -/
def visit : Nat → Node → VState → Option VState
  | 0, _, _ => none
  | fuel + 1, node, v =>
    let cur1 := enterCur node v.cur
    match callSiteStep fuel node cur1 v.ast v.fileBlocking with
    | none => none
    | some (ast2, fb2) =>
      match visitListF (visit fuel) node.children ⟨ast2, fb2, cur1⟩ with
      | none => none
      | some v' => some { v' with cur := exitCur node v'.cur }

/-- `analyzeSourceFile`: run the visitor over the top-level statements with
`currentFunction` initially undefined and an empty file-local set; returns
the final analyzer state and the file's direct-blocking set. -/
def analyzeSourceFile (fuel : Nat) (topLevel : List Node) (st : AState) :
    Option (AState × List String) :=
  match visitListF (visit fuel) topLevel ⟨st, [], none⟩ with
  | none => none
  | some v => some (v.ast, v.fileBlocking)

/-! ### `normalizeImportPath` (the `path.resolve` + extension-regex variant,
shared by `src/analyzer.ts`, `src/plugin.ts`, `part_000` and `part_001`) -/

/-- POSIX path-segment normalization used by `path.resolve` for an absolute
base: drop empty and `.` segments, let `..` pop the stack. -/
def normStack (segs : List String) : List String :=
  segs.foldl
    (fun stack seg =>
      if seg = "" ∨ seg = "." then stack
      else if seg = ".." then stack.dropLast
      else stack ++ [seg])
    []

/-- `path.resolve(baseAbs, rel)` for an absolute POSIX base directory. -/
def resolveRel (baseAbs rel : String) : String :=
  "/" ++ String.intercalate "/" (normStack (splitSlash baseAbs ++ splitSlash rel))

/-- `path.dirname` (POSIX): strip trailing slashes, then the final segment,
then its separators; `/` or `.` when nothing remains. -/
def dirnamePosix (s : String) : String :=
  let r := s.toList.reverse
  let r1 := r.dropWhile (fun c => c = '/')
  let r2 := r1.dropWhile (fun c => c ≠ '/')
  let r3 := r2.dropWhile (fun c => c = '/')
  if r3.isEmpty then (if strStartsWith s "/" then "/" else ".")
  else String.mk r3.reverse

/-- The test of the regular expression `/\.[^/.]+$/`: the path ends with a
dot followed by at least one character that is neither `/` nor `.`. -/
def extMatch (s : String) : Bool :=
  let r := s.toList.reverse
  let pre := r.takeWhile (fun c => c ≠ '.' ∧ c ≠ '/')
  let rest := r.dropWhile (fun c => c ≠ '.' ∧ c ≠ '/')
  (!pre.isEmpty) && (rest.head? = some '.')

/-- `normalizeImportPath` of `src/analyzer.ts`: non-relative specifiers are
returned unchanged; relative ones are resolved against `dirname(currentFile)`
and given a `.ts` extension exactly when the extension regex fails. -/
def normalizeImportPath (importSpecifier currentFile : String) : String :=
  if !(strStartsWith importSpecifier ".") then importSpecifier
  else
    let resolvedPath := resolveRel (dirnamePosix currentFile) importSpecifier
    if extMatch resolvedPath then resolvedPath else resolvedPath ++ ".ts"

end Analyzer

/-! ### Concrete modules used to test the `src/analyzer.ts` run -/

/-- `function b() { Deno.readFileSync(""); }` followed by
`async function a() { q.b(); }` — the callee of the second call is a member
access, so the call edge `(a, b)` is recorded via the member-name branch. -/
def c1Module : List Analyzer.Node :=
  [Analyzer.Node.funcDecl (some (Analyzer.FName.id "b")) ⟨1, 0⟩
      [Analyzer.Node.callExpr
        (Analyzer.Callee.member (some "Deno") (some "readFileSync")) []],
   Analyzer.Node.funcDecl (some (Analyzer.FName.id "a")) ⟨2, 0⟩
      [Analyzer.Node.callExpr
        (Analyzer.Callee.member (some "q") (some "b")) []]]

/-- `function outer() { function inner() {} Deno.readFileSync(""); }` —
the platform-sync call sits inside `outer`, textually after the nested
declaration of `inner`. -/
def c5ModuleAfter : List Analyzer.Node :=
  [Analyzer.Node.funcDecl (some (Analyzer.FName.id "outer")) ⟨1, 0⟩
      [Analyzer.Node.funcDecl (some (Analyzer.FName.id "inner")) ⟨2, 2⟩ [],
       Analyzer.Node.callExpr
         (Analyzer.Callee.member (some "Deno") (some "readFileSync")) []]]

/-- The same module with the platform-sync call before the nested
declaration. -/
def c5ModuleBefore : List Analyzer.Node :=
  [Analyzer.Node.funcDecl (some (Analyzer.FName.id "outer")) ⟨1, 0⟩
      [Analyzer.Node.callExpr
         (Analyzer.Callee.member (some "Deno") (some "readFileSync")) [],
       Analyzer.Node.funcDecl (some (Analyzer.FName.id "inner")) ⟨2, 2⟩ []]]

/-! ## The `src/eslint.config.ts` variant -/

namespace EslintConfig

/-- The `globalState` of `src/eslint.config.ts` (the `analyzedPaths` field is
not read by the propagation code).  `importMap` entries are
`(localName, (source, name))`; `analyzedFiles` maps a module path to its
direct-blocking names.  `blockingFunctions` is kept as a `Finset` since the
propagation only tests membership and inserts. -/
structure PState where
  blockingFunctions : Finset String
  importMap : List (String × String × String)
  analyzedFiles : List (String × List String)
  functionCalls : List (String × List String)
deriving DecidableEq

/-- One step of the first pass of `propagateBlockingStatus`: if the caller is
not yet blocking and some callee is, add the caller and set `changed` (the
source breaks out of the callee loop after the first hit; the effect is the
same single insertion). -/
def pass1step (acc : Finset String × Bool) (e : String × List String) :
    Finset String × Bool :=
  if e.1 ∈ acc.1 then acc
  else if e.2.any (fun c => decide (c ∈ acc.1)) then (insert e.1 acc.1, true)
  else acc

/-- First pass: direct blocking through call edges. -/
def pass1 (fc : List (String × List String)) (acc : Finset String × Bool) :
    Finset String × Bool :=
  fc.foldl pass1step acc

/-- Does `analyzedFiles` record `name` as directly blocking in module
`source`?  (`sourceBlockingFuncs?.has(importInfo.name)`) -/
def directBlockingIn (analyzedFiles : List (String × List String))
    (source name : String) : Bool :=
  match lookupA analyzedFiles source with
  | some funcs => name ∈ funcs
  | none => false

/-- One step of the second pass: an import alias whose original name is
directly blocking in its source module makes the local name blocking. -/
def pass2step (analyzedFiles : List (String × List String))
    (acc : Finset String × Bool) (e : String × String × String) :
    Finset String × Bool :=
  if directBlockingIn analyzedFiles e.2.1 e.2.2 then
    (if e.1 ∈ acc.1 then acc else (insert e.1 acc.1, true))
  else acc

/-- Second pass: imported functions. -/
def pass2 (im : List (String × String × String))
    (analyzedFiles : List (String × List String))
    (acc : Finset String × Bool) : Finset String × Bool :=
  im.foldl (pass2step analyzedFiles) acc

/-- Is the callee an import alias that resolves to a directly blocking
name? -/
def calleeImportBlocking (im : List (String × String × String))
    (analyzedFiles : List (String × List String)) (callee : String) : Bool :=
  match lookupA im callee with
  | some (source, name) => directBlockingIn analyzedFiles source name
  | none => false

/-- One step of the third pass: a caller of an import-aliased blocking name
becomes blocking. -/
def pass3step (im : List (String × String × String))
    (analyzedFiles : List (String × List String))
    (acc : Finset String × Bool) (e : String × List String) :
    Finset String × Bool :=
  if e.1 ∈ acc.1 then acc
  else if e.2.any (calleeImportBlocking im analyzedFiles) then
    (insert e.1 acc.1, true)
  else acc

/-- Third pass: function calls through import aliases. -/
def pass3 (fc : List (String × List String))
    (im : List (String × String × String))
    (analyzedFiles : List (String × List String))
    (acc : Finset String × Bool) : Finset String × Bool :=
  fc.foldl (pass3step im analyzedFiles) acc

/-- One iteration of the `while (changed)` body of
`propagateBlockingStatus`: the three passes sharing one `changed` flag that
starts `false`. -/
def onePass (st : PState) : Finset String × Bool :=
  pass3 st.functionCalls st.importMap st.analyzedFiles
    (pass2 st.importMap st.analyzedFiles
      (pass1 st.functionCalls (st.blockingFunctions, false)))

/-- `propagateBlockingStatus`, with an explicit bound on the number of loop
iterations; the returned flag is `true` exactly when the loop exited because
a full pass made no change (the fixed point was reached within the
budget). -/
def propagateN : Nat → PState → PState × Bool
  | 0, st => (st, false)
  | n + 1, st =>
    let p := onePass st
    if p.2 then propagateN n { st with blockingFunctions := p.1 }
    else ({ st with blockingFunctions := p.1 }, true)

/-- The names the propagation can ever add: the callers of recorded call
edges and the local names of import aliases. -/
def candidates (st : PState) : Finset String :=
  (st.functionCalls.map Prod.fst).toFinset ∪ (st.importMap.map Prod.fst).toFinset

/-- Iterations still possible: candidate names not yet blocking. -/
def bound (st : PState) : Nat :=
  (candidates st \ st.blockingFunctions).card

/-! ### `normalizeImportPath` of `src/eslint.config.ts` (also
`src/unnamed/part_003`): URL-based resolution with an `endsWith(".ts")`
check instead of the extension regex. -/

/-- `currentFile.replace(/\/[^/]+$/, '')`: strip a final `/segment` when the
string ends in a slash followed by at least one non-slash character. -/
def stripLastComponent (s : String) : String :=
  let r := s.toList.reverse
  let pre := r.takeWhile (fun c => c ≠ '/')
  if pre.isEmpty then s
  else match r.drop pre.length with
    | [] => s
    | _ :: rest => String.mk rest.reverse

/-- `normalizeImportPath` of `src/eslint.config.ts`: resolve the relative
specifier against `file://<currentDir>/` with the WHATWG URL dot-segment
algorithm (modelled here for percent-free POSIX paths, where
`decodeURIComponent` is the identity and the constructor does not throw),
then append `.ts` unless the resolved path already ends in `.ts`. -/
def normalizeImportPath (importSpecifier currentFile : String) : String :=
  if !(strStartsWith importSpecifier ".") then importSpecifier
  else
    let currentDir := stripLastComponent currentFile
    let dirAbs := if strStartsWith currentDir "/" then currentDir
      else "/" ++ currentDir
    let resolved := Analyzer.resolveRel dirAbs importSpecifier
    if strEndsWith resolved ".ts" then resolved else resolved ++ ".ts"

end EslintConfig

/-! ## The `src/unnamed/part_000` / `src/unnamed/part_001` variant

Both files hold the identical guarded `markAsBlocking` with location
inheritance and the identical location-aware `analyzeSourceFile`;
`part_001` additionally holds the synchronous local-only `analyzeFile`. -/

namespace P01

/-- A recorded function location (`FunctionLocation`). -/
structure FLoc where
  file : String
  line : Nat
  column : Nat
deriving DecidableEq

/-- The `AnalyzerState` of `part_001` (the fields of `part_000` that the
embedded operations touch are the same). -/
structure AState where
  blockingFunctions : List String
  analyzedFiles : List (String × List String)
  functionCalls : List (String × List String)
  functionLocations : List (String × FLoc)
deriving DecidableEq

/-- `addFunctionCall` (identical to the `src/analyzer.ts` one). -/
def addFunctionCall (caller callee : String) (st : AState) : AState :=
  match lookupA st.functionCalls caller with
  | some callees =>
    let fc := setA st.functionCalls caller (insertName callee callees)
    { st with functionCalls := fc }
  | none =>
    { st with functionCalls := st.functionCalls ++ [(caller, [callee])] }

/-- Loop body of the guarded `markAsBlocking`: recurse into each caller of
`funcName`, then let a caller without a recorded location inherit
`funcName`'s location.  The `visited` set is shared through the whole
recursion (the source passes the same `Set` object down). -/
def markLoopF
    (rec : String → AState → Finset String → Option (AState × Finset String))
    (funcName : String) :
    List (String × List String) → AState → Finset String →
      Option (AState × Finset String)
  | [], st, vis => some (st, vis)
  | (caller, callees) :: rest, st, vis =>
    if funcName ∈ callees then
      match rec caller st vis with
      | none => none
      | some (st', vis') =>
        let st'' :=
          if (lookupA st'.functionLocations caller).isNone then
            match lookupA st'.functionLocations funcName with
            | some loc =>
              let fl := setA st'.functionLocations caller loc
              { st' with functionLocations := fl }
            | none => st'
          else st'
        markLoopF rec funcName rest st'' vis'
    else markLoopF rec funcName rest st vis

/-- `markAsBlocking` of `part_000`/`part_001`: guarded by the `visited` set,
adds the name, recursively marks all callers, and lets location-less callers
inherit the callee's location.  Fuel bounds the recursion depth. -/
def markAsBlocking :
    Nat → String → AState → Finset String → Option (AState × Finset String)
  | 0, _, _, _ => none
  | n + 1, funcName, st, vis =>
    if funcName ∈ vis then some (st, vis)
    else
      let vis := insert funcName vis
      let st :=
        { st with blockingFunctions := insertName funcName st.blockingFunctions }
      markLoopF (markAsBlocking n) funcName st.functionCalls st vis

/-- Visitor state of the location-aware `analyzeSourceFile`. -/
structure VState where
  ast : AState
  fileBlocking : List String
  cur : Option String
deriving DecidableEq

/-- Record a declaration's location (`getLineAndCharacterOfPosition` is
0-based; the source stores `line + 1` / `character + 1`). -/
def recordLoc (name filePath : String) (pos : Analyzer.Pos) (st : AState) :
    AState :=
  let fl := setA st.functionLocations name ⟨filePath, pos.line + 1, pos.col + 1⟩
  { st with functionLocations := fl }

/-- Entry action of the `part_000`/`part_001` visitor: set `currentFunction`
and record the declaration's location. -/
def enterNode (filePath : String) (node : Analyzer.Node) (v : VState) : VState :=
  match node with
  | .funcDecl (some (.id s)) pos _ =>
    { v with cur := some s, ast := recordLoc s filePath pos v.ast }
  | .methodDecl (some (.id s)) pos _ =>
    { v with cur := some s, ast := recordLoc s filePath pos v.ast }
  | .varDeclFun s pos _ =>
    { v with cur := some s, ast := recordLoc s filePath pos v.ast }
  | _ => v

/-- Call handling of the `part_000`/`part_001` visitor: as in
`src/analyzer.ts` but with the guarded `markAsBlocking` (each invocation
starts with a fresh empty `visited` set, the source's default argument). -/
def handleCall (fuel : Nat) (f : String) (callee : Analyzer.Callee)
    (ast : AState) (fileBlocking : List String) :
    Option (AState × List String) :=
  match callee with
  | .member (some obj) (some prop) =>
    if obj = "Deno" ∧ strEndsWith prop "Sync" then
      match markAsBlocking fuel f ast ∅ with
      | none => none
      | some (ast', _) => some (ast', insertName f fileBlocking)
    else some (addFunctionCall f prop ast, fileBlocking)
  | .member none (some prop) =>
    some (addFunctionCall f prop ast, fileBlocking)
  | .member _ none => some (ast, fileBlocking)
  | .identC name =>
    let ast1 := addFunctionCall f name ast
    if name ∈ ast1.blockingFunctions then
      match markAsBlocking fuel f ast1 ∅ with
      | none => none
      | some (ast', _) => some (ast', fileBlocking)
    else some (ast1, fileBlocking)
  | .otherC => some (ast, fileBlocking)

/-- The call-expression branch of the `part_000`/`part_001` visitor, guarded
by `currentFunction` being set. -/
def callSiteStep (fuel : Nat) (node : Analyzer.Node) (cur1 : Option String)
    (ast : AState) (fb : List String) : Option (AState × List String) :=
  match cur1, node with
  | some f, .callExpr c _ => handleCall fuel f c ast fb
  | _, _ => some (ast, fb)

/-- The recursive `visit` of the `part_000`/`part_001`
`analyzeSourceFile`. -/
def visit (filePath : String) : Nat → Analyzer.Node → VState → Option VState
  | 0, _, _ => none
  | fuel + 1, node, v =>
    let v1 := enterNode filePath node v
    match callSiteStep fuel node v1.cur v1.ast v1.fileBlocking with
    | none => none
    | some (ast2, fb2) =>
      match Analyzer.visitListF (visit filePath fuel) node.children
          ⟨ast2, fb2, v1.cur⟩ with
      | none => none
      | some v' => some { v' with cur := Analyzer.exitCur node v'.cur }

/-- `analyzeSourceFile` of `part_000`/`part_001`. -/
def analyzeSourceFile (fuel : Nat) (filePath : String)
    (topLevel : List Analyzer.Node) (st : AState) :
    Option (AState × List String) :=
  match Analyzer.visitListF (visit filePath fuel) topLevel ⟨st, [], none⟩ with
  | none => none
  | some v => some (v.ast, v.fileBlocking)

/-- A module as consumed by `analyzeFile` of `part_001`: its import
specifiers in source order and its top-level statements.  `none` from the
environment models a failing `Deno.readTextFileSync` or parse. -/
structure ModuleSrc where
  imports : List String
  body : List Analyzer.Node

/-- The import loop of `analyzeFile`: for each import whose specifier starts
with `.`, normalize it and recurse (through `rec`); other specifiers are
ignored.  The recursive result's blocking set is discarded, its `visited`
and state updates are kept. -/
def importLoopF
    (rec : String → List String → AState →
      Option (List String × List String × AState))
    (absolutePath : String) :
    List String → List String → AState →
      Option (List String × AState)
  | [], visited, st => some (visited, st)
  | src :: rest, visited, st =>
    if strStartsWith src "." then
      let importPath := Analyzer.normalizeImportPath src absolutePath
      match rec importPath visited st with
      | none => none
      | some (_, visited', st') => importLoopF rec absolutePath rest visited' st'
    else importLoopF rec absolutePath rest visited st

/-- `analyzeFile` of `part_001` (synchronous, local imports only): the
visited guard short-circuits to the cached per-file result; a module whose
read fails (`env` returns `none`) is caught and contributes an empty
direct-blocking set while the run continues.  Module identifiers are taken
pre-resolved (absolute), matching `path.resolve` on absolute inputs.
Returns `(blockingFuncs, visited, state)`. -/
def analyzeFile (env : String → Option ModuleSrc) :
    Nat → String → List String → AState →
      Option (List String × List String × AState)
  | 0, _, _, _ => none
  | n + 1, filePath, visited, st =>
    if filePath ∈ visited then
      some ((lookupA st.analyzedFiles filePath).getD [], visited, st)
    else
      let visited := filePath :: visited
      match env filePath with
      | none => some ([], visited, st)
      | some m =>
        match importLoopF (analyzeFile env n) filePath m.imports visited st with
        | none => none
        | some (visited', st') =>
          match analyzeSourceFile n filePath m.body st' with
          | none => none
          | some (st'', blockingFuncs) =>
            let af := setA st''.analyzedFiles filePath blockingFuncs
            some (blockingFuncs, visited', { st'' with analyzedFiles := af })

/-- Keys (recorded callers) of the call map — the only names the guarded
`markAsBlocking` ever recurses into. -/
def callers (st : AState) : Finset String :=
  (st.functionCalls.map Prod.fst).toFinset

/-- What one `markAsBlocking` call preserves: the call map and analyzed-files
map are untouched, the visited set and blocking set only grow, and every
already-recorded function location keeps its value. -/
def Pres (st : AState) (vis : Finset String) (r : AState × Finset String) : Prop :=
  r.1.functionCalls = st.functionCalls ∧
  r.1.analyzedFiles = st.analyzedFiles ∧
  vis ⊆ r.2 ∧
  (∀ x ∈ st.blockingFunctions, x ∈ r.1.blockingFunctions) ∧
  (∀ g loc, lookupA st.functionLocations g = some loc →
    lookupA r.1.functionLocations g = some loc)

end P01

/-! ## The `src/plugin.ts` variant -/

namespace PluginTs

/-- The `globalState` of `src/plugin.ts`. -/
structure GState where
  blockingFunctions : List String
  importMap : List (String × String × String)
  analyzedFiles : List (String × List String)
  functionCalls : List (String × List String)
deriving DecidableEq

/-- The callee loop of `isBlockingFunction`: skip visited callees, recurse
into the rest; a blocking callee memoizes the queried name into the global
blocking set and answers `true`. -/
def callLoopF
    (rec : String → List String → GState → Option (Bool × GState × List String))
    (name : String) :
    List String → GState → List String → Option (Bool × GState × List String)
  | [], st, vis => some (false, st, vis)
  | c :: rest, st, vis =>
    if c ∈ vis then callLoopF rec name rest st vis
    else
      match rec c vis st with
      | none => none
      | some (true, st', vis') =>
        some (true,
          { st' with blockingFunctions := insertName name st'.blockingFunctions },
          vis')
      | some (false, st', vis') => callLoopF rec name rest st' vis'

/-- `isBlockingFunction` of `src/plugin.ts` (inside `create`): NOT pure
membership — after the direct check it consults the import map and then
recursively explores recorded call edges, memoizing positive answers into
`globalState.blockingFunctions`.  The `visited` set is shared through the
recursion.  Fuel bounds the recursion depth. -/
def isBlockingFunction :
    Nat → String → List String → GState → Option (Bool × GState × List String)
  | 0, _, _, _ => none
  | n + 1, name, visited, st =>
    if name ∈ visited then some (false, st, visited)
    else
      let visited := insertName name visited
      if name ∈ st.blockingFunctions then some (true, st, visited)
      else
        let viaImport :=
          match lookupA st.importMap name with
          | some (source, nm) => EslintConfig.directBlockingIn st.analyzedFiles source nm
          | none => false
        if viaImport then
          some (true,
            { st with blockingFunctions := insertName name st.blockingFunctions },
            visited)
        else
          match lookupA st.functionCalls name with
          | none => some (false, st, visited)
          | some callees => callLoopF (isBlockingFunction n) name callees st visited

/-- What a query of `isBlockingFunction` preserves: every component of the
global state except the blocking set is unchanged, and the blocking set only
grows. -/
def QPres (st : GState) (r : Bool × GState × List String) : Prop :=
  r.2.1.importMap = st.importMap ∧
  r.2.1.analyzedFiles = st.analyzedFiles ∧
  r.2.1.functionCalls = st.functionCalls ∧
  (∀ x ∈ st.blockingFunctions, x ∈ r.2.1.blockingFunctions)

/-- An ancestor node as far as the `CallExpression` handler's parent walk
distinguishes it: a `FunctionDeclaration` (with its `async` flag and
optional identifier name) or anything else. -/
inductive ENode where
  | fnDecl (isAsync : Bool) (name : Option String)
  | otherN
deriving DecidableEq

/-- The parent walk `while (parent && parent.type !== "FunctionDeclaration")`:
the nearest enclosing `FunctionDeclaration` in the ancestor chain (listed
innermost first). -/
def findFnDecl : List ENode → Option (Bool × Option String)
  | [] => none
  | .fnDecl a nm :: _ => some (a, nm)
  | .otherN :: rest => findFnDecl rest

/-- Callee shape of the reported call expression, as far as the handler
inspects it. -/
inductive ECallee where
  | memberE (obj prop : String)
  | identE (name : String)
  | otherE
deriving DecidableEq

/-- The `CallExpression` handler of the `no-async-sync` rule in
`src/plugin.ts`: find the nearest enclosing `FunctionDeclaration`; only when
it is `async` and named does the handler query `isBlockingFunction` and,
when that answers `true`, report a `Deno.*Sync` member callee or an
identifier callee that is in the blocking set.  Returns whether
`context.report` was called, and the (possibly memoization-extended) global
state. -/
def callExpressionHandler (fuel : Nat) (ancestors : List ENode)
    (callee : ECallee) (st : GState) : Option (Bool × GState) :=
  match findFnDecl ancestors with
  | some (true, some funcName) =>
    match isBlockingFunction fuel funcName [] st with
    | none => none
    | some (b, st', _) =>
      if b then
        match callee with
        | .memberE obj prop =>
          if obj = "Deno" ∧ strEndsWith prop "Sync" then some (true, st')
          else some (false, st')
        | .identE nm =>
          if nm ∈ st'.blockingFunctions then some (true, st')
          else some (false, st')
        | .otherE => some (false, st')
      else some (false, st')
  | _ => some (false, st)

end PluginTs

/-! ## Concrete states for the scenario theorems -/

/-- The final analyzer state of the `c1Module` run. -/
def c1Final : Analyzer.AState :=
  { blockingFunctions := ["b"], functionCalls := [("a", ["b"])] }

/-- A mutually recursive call graph: `a` calls `b` and `b` calls `a` (as
recorded after traversing `function a(){ b() } function b(){ a();
Deno.readFileSync("") }` up to the seeding call). -/
def c2CycleState : Analyzer.AState :=
  { blockingFunctions := [], functionCalls := [("a", ["b"]), ("b", ["a"])] }

/-- Query state for `src/plugin.ts`: nothing blocking yet, but `a` is an
an import alias for `f` from `/m/b.ts`, and `f` is recorded as directly blocking
there. -/
def c4State : PluginTs.GState :=
  { blockingFunctions := [], importMap := [("a", "/m/b.ts", "f")],
    analyzedFiles := [("/m/b.ts", ["f"])], functionCalls := [] }

/-- Reporting state: `f` is in the blocking set. -/
def c8State : PluginTs.GState :=
  { blockingFunctions := ["f"], importMap := [], analyzedFiles := [],
    functionCalls := [] }

/-- Propagation state for location inheritance: `a` calls `b`, only `b` has
a recorded location. -/
def c10State : P01.AState :=
  { blockingFunctions := [], analyzedFiles := [],
    functionCalls := [("a", ["b"])],
    functionLocations := [("b", ⟨"/m/b.ts", 3, 1⟩)] }

/-- Expected final state of the `c10State` marking. -/
def c10Final : P01.AState :=
  { blockingFunctions := ["b", "a"], analyzedFiles := [],
    functionCalls := [("a", ["b"])],
    functionLocations := [("b", ⟨"/m/b.ts", 3, 1⟩), ("a", ⟨"/m/b.ts", 3, 1⟩)] }

/-- Module environment with a broken sibling import: the root imports
`./bad.ts` (unreadable) and `./good.ts` (whose `g` performs `Deno.readFileSync`),
and defines `w` calling `g`. -/
def c6Env : String → Option P01.ModuleSrc := fun p =>
  if p = "/r/root.ts" then
    some ⟨["./bad.ts", "./good.ts"],
      [Analyzer.Node.funcDecl (some (Analyzer.FName.id "w")) ⟨0, 0⟩
        [Analyzer.Node.callExpr (Analyzer.Callee.identC "g") []]]⟩
  else if p = "/r/good.ts" then
    some ⟨[],
      [Analyzer.Node.funcDecl (some (Analyzer.FName.id "g")) ⟨0, 0⟩
        [Analyzer.Node.callExpr
          (Analyzer.Callee.member (some "Deno") (some "readFileSync")) []]]⟩
  else none

/-- A small propagation state: call edge `a → b`, import alias
`h → (M, f)`, module `M` with direct-blocking `f`, and `b` already
blocking. -/
def c1WitnessState : EslintConfig.PState :=
  { blockingFunctions := {"b"}, importMap := [("h", "M", "f")],
    analyzedFiles := [("M", ["f"])], functionCalls := [("a", ["b"])] }

/-- The empty `part_001` analyzer state. -/
def c6Init : P01.AState :=
  { blockingFunctions := [], analyzedFiles := [], functionCalls := [],
    functionLocations := [] }

/-- Expected final state of the `c6Env` run. -/
def c6Final : P01.AState :=
  { blockingFunctions := ["g", "w"],
    analyzedFiles := [("/r/good.ts", ["g"]), ("/r/root.ts", [])],
    functionCalls := [("w", ["g"])],
    functionLocations := [("g", ⟨"/r/good.ts", 1, 1⟩), ("w", ⟨"/r/root.ts", 1, 1⟩)] }

/-! # Lemmas and theorems -/

/-! ## Association-list and set lemmas -/

theorem lookupA_setA_self {α : Type} (m : List (String × α)) (k : String) (v : α) :
    lookupA (setA m k v) k = some v := by
  induction m with
  | nil => simp [setA, lookupA]
  | cons hd tl ih =>
    obtain ⟨k', w⟩ := hd
    by_cases h : k' = k
    · simp [setA, lookupA, h]
    · simp [setA, lookupA, h, ih]

theorem lookupA_setA_other {α : Type} (m : List (String × α)) (k g : String) (v : α)
    (hne : g ≠ k) : lookupA (setA m k v) g = lookupA m g := by
  have hne' : k ≠ g := fun h => hne h.symm
  induction m with
  | nil => simp [setA, lookupA, hne']
  | cons hd tl ih =>
    obtain ⟨k', w⟩ := hd
    by_cases h : k' = k
    · subst h
      simp [setA, lookupA, hne']
    · simp only [setA, if_neg h, lookupA]
      by_cases h2 : k' = g
      · simp [h2]
      · simp [h2, ih]

theorem mem_insertName (x y : String) (l : List String) :
    y ∈ insertName x l ↔ y ∈ l ∨ y = x := by
  unfold insertName
  by_cases h : x ∈ l
  · simp only [if_pos h]
    constructor
    · exact Or.inl
    · rintro (hy | rfl)
      · exact hy
      · exact h
  · simp [if_neg h, or_comm]

theorem subset_insertName (x : String) (l : List String) :
    ∀ y ∈ l, y ∈ insertName x l := by
  intro y hy
  exact (mem_insertName x y l).mpr (Or.inl hy)

theorem self_mem_insertName (x : String) (l : List String) :
    x ∈ insertName x l :=
  (mem_insertName x x l).mpr (Or.inr rfl)

/-! ## Divergence of the unguarded `markAsBlocking` on a call cycle -/

theorem analyzer_mark_cycle_none :
    ∀ (n : Nat) (bl : List String),
      Analyzer.markAsBlocking n "a" ⟨bl, [("a", ["b"]), ("b", ["a"])]⟩ = none ∧
      Analyzer.markAsBlocking n "b" ⟨bl, [("a", ["b"]), ("b", ["a"])]⟩ = none := by
  intro n
  induction n with
  | zero => intro bl; exact ⟨rfl, rfl⟩
  | succ n ih =>
    intro bl
    constructor
    · rw [Analyzer.markAsBlocking]
      rw [Analyzer.markLoopF]
      rw [if_neg (by decide : ¬ ("a" : String) ∈ ["b"])]
      rw [Analyzer.markLoopF]
      rw [if_pos (by decide : ("a" : String) ∈ ["a"])]
      rw [(ih (insertName "a" bl)).2]
    · rw [Analyzer.markAsBlocking]
      rw [Analyzer.markLoopF]
      rw [if_pos (by decide : ("b" : String) ∈ ["b"])]
      rw [(ih (insertName "b" bl)).1]

/-! ## Claim counterexamples and code-bug evaluations on concrete inputs -/

/-- **C1, counterexample.**  Running the `src/analyzer.ts` analysis
(`analyzeSourceFile` with its `markAsBlocking` propagation) on `c1Module`
(`function b(){ Deno.readFileSync("") }` then `async function a(){ q.b() }`)
finishes with the call edge `(a, b)` recorded (through the member-access
callee branch) and `b` in the Blocking Set, yet `a` is NOT in the Blocking
Set: the closure property fails for call edges recorded from member-access
callees after the callee was already blocking. -/
theorem claim_C1_counterexample :
    Analyzer.analyzeSourceFile 10 c1Module ⟨[], []⟩ = some (c1Final, ["b"]) ∧
    ("a", ["b"]) ∈ c1Final.functionCalls ∧
    "b" ∈ c1Final.blockingFunctions ∧
    ¬ "a" ∈ c1Final.blockingFunctions := by
  refine ⟨by decide, by decide, by decide, by decide⟩

/-- **C2, counterexample.**  On the mutually recursive call graph
`a ↔ b` of `c2CycleState`, the `src/analyzer.ts` `markAsBlocking` (which has
no visited guard) exceeds every finite recursion-depth budget: marking `b`
blocking never returns. -/
theorem claim_C2_counterexample :
    Analyzer.markTerminates "b" c2CycleState = False := by
  apply eq_false
  rintro ⟨n, hn⟩
  have h := (analyzer_mark_cycle_none n []).2
  rw [show c2CycleState = (⟨[], [("a", ["b"]), ("b", ["a"])]⟩ : Analyzer.AState) from rfl] at hn
  rw [h] at hn
  simp at hn

/-- **C4, counterexample.**  `isBlockingFunction` of `src/plugin.ts` is not
pure membership and not side-effect-free: on `c4State` (where `a` is not in
the Blocking Set but aliases the directly blocking import `f`), the query
for `a` answers `true` and inserts `a` into the Blocking Set. -/
theorem claim_C4_counterexample :
    PluginTs.isBlockingFunction 3 "a" [] c4State =
      some (true, { c4State with blockingFunctions := ["a"] }, ["a"]) ∧
    ¬ "a" ∈ c4State.blockingFunctions := by
  refine ⟨by decide, by decide⟩

/-- **C5, code bug.**  The visitor of `src/analyzer.ts` clears
`currentFunction` (sets it to `undefined`) when leaving a named nested
function declaration instead of restoring the outer name: in
`function outer(){ function inner(){}; Deno.readFileSync("") }` the
platform-sync call after the nested declaration is attributed to no function
and `outer` is not marked, while the same call placed before the nested
declaration does mark `outer`. -/
theorem claim_C5_code_evaluation :
    Analyzer.analyzeSourceFile 10 c5ModuleAfter ⟨[], []⟩ =
      some (⟨[], []⟩, []) ∧
    Analyzer.analyzeSourceFile 10 c5ModuleBefore ⟨[], []⟩ =
      some (⟨["outer"], []⟩, ["outer"]) := by
  refine ⟨by decide, by decide⟩

/-- **C9, counterexample.**  The `normalizeImportPath` of
`src/eslint.config.ts` (and `part_003`) appends `.ts` whenever the resolved
path does not end in `.ts`: the specifier `./b.js` imported from
`/dir/a.ts` resolves to `/dir/b.js`, which already has a file extension
(the extension test of the claim holds for it), yet the function returns
`/dir/b.js.ts` instead of leaving it unchanged. -/
theorem claim_C9_counterexample :
    EslintConfig.normalizeImportPath "./b.js" "/dir/a.ts" = "/dir/b.js.ts" ∧
    Analyzer.extMatch "/dir/b.js" = true := by
  refine ⟨by decide, by decide⟩

/-! ## Generic lemmas about the flag-threading folds of
`propagateBlockingStatus` -/

theorem foldl_acc_mono {α : Type}
    (step : Finset String × Bool → α → Finset String × Bool)
    (hstep : ∀ acc e, acc.1 ⊆ (step acc e).1) :
    ∀ (l : List α) (acc : Finset String × Bool), acc.1 ⊆ (l.foldl step acc).1 := by
  intro l
  induction l with
  | nil => intro acc; exact Finset.Subset.refl _
  | cons e rest ih =>
    intro acc
    exact (hstep acc e).trans (ih (step acc e))

theorem foldl_flag_persist {α : Type}
    (step : Finset String × Bool → α → Finset String × Bool)
    (hstep : ∀ acc e, acc.2 = true → (step acc e).2 = true) :
    ∀ (l : List α) (acc : Finset String × Bool),
      acc.2 = true → (l.foldl step acc).2 = true := by
  intro l
  induction l with
  | nil => intro acc h; exact h
  | cons e rest ih =>
    intro acc h
    exact ih (step acc e) (hstep acc e h)

theorem foldl_unchanged_of_flag_false {α : Type}
    (step : Finset String × Bool → α → Finset String × Bool)
    (hstep : ∀ acc e, (step acc e).2 = false → step acc e = acc) :
    ∀ (l : List α) (acc : Finset String × Bool),
      (l.foldl step acc).2 = false → l.foldl step acc = acc := by
  intro l
  induction l with
  | nil => intro acc _; rfl
  | cons e rest ih =>
    intro acc h
    have h0 : List.foldl step acc (e :: rest) = List.foldl step (step acc e) rest := rfl
    rw [h0] at h ⊢
    have h1 : List.foldl step (step acc e) rest = step acc e := ih (step acc e) h
    rw [h1] at h ⊢
    exact hstep acc e h

theorem foldl_closed_of_flag_false {α : Type}
    (step : Finset String × Bool → α → Finset String × Bool)
    (P : Finset String → α → Prop)
    (hstep : ∀ acc e, (step acc e).2 = false → step acc e = acc ∧ P acc.1 e) :
    ∀ (l : List α) (acc : Finset String × Bool),
      (l.foldl step acc).2 = false → ∀ e ∈ l, P acc.1 e := by
  intro l
  induction l with
  | nil => intro acc _ e he; cases he
  | cons e rest ih =>
    intro acc hflag e' he'
    have h0 : List.foldl step acc (e :: rest) = List.foldl step (step acc e) rest := rfl
    rw [h0] at hflag
    have h1 : List.foldl step (step acc e) rest = step acc e :=
      foldl_unchanged_of_flag_false step (fun a b h => (hstep a b h).1) rest _ hflag
    have h2 : (step acc e).2 = false := by rw [h1] at hflag; exact hflag
    obtain ⟨heq, hP⟩ := hstep acc e h2
    rcases List.mem_cons.mp he' with rfl | hmem
    · exact hP
    · have := ih (step acc e) hflag e' hmem
      rw [heq] at this
      exact this

theorem foldl_subset_union {α : Type}
    (step : Finset String × Bool → α → Finset String × Bool)
    (key : α → String)
    (hstep : ∀ acc e, (step acc e).1 ⊆ insert (key e) acc.1) :
    ∀ (l : List α) (acc : Finset String × Bool),
      (l.foldl step acc).1 ⊆ acc.1 ∪ (l.map key).toFinset := by
  intro l
  induction l with
  | nil => intro acc; simp
  | cons e rest ih =>
    intro acc
    have h1 := ih (step acc e)
    have h2 := hstep acc e
    intro x hx
    have hx1 := h1 hx
    rcases Finset.mem_union.mp hx1 with hx2 | hx2
    · rcases Finset.mem_insert.mp (h2 hx2) with rfl | hx3
      · simp
      · exact Finset.mem_union_left _ hx3
    · apply Finset.mem_union_right
      simp only [List.map_cons, List.toFinset_cons, Finset.mem_insert]
      exact Or.inr (by simpa using hx2)

theorem foldl_new_elem_of_flag {α : Type}
    (step : Finset String × Bool → α → Finset String × Bool)
    (hmono : ∀ acc e, acc.1 ⊆ (step acc e).1)
    (hstep : ∀ acc e, step acc e = acc ∨
      ((step acc e).2 = true ∧ ∃ x, x ∉ acc.1 ∧ x ∈ (step acc e).1)) :
    ∀ (l : List α) (acc : Finset String × Bool),
      (l.foldl step acc).2 = true →
      acc.2 = true ∨ ∃ x, x ∉ acc.1 ∧ x ∈ (l.foldl step acc).1 := by
  intro l
  induction l with
  | nil => intro acc h; exact Or.inl h
  | cons e rest ih =>
    intro acc hflag
    have h0 : List.foldl step acc (e :: rest) = List.foldl step (step acc e) rest := rfl
    rw [h0] at hflag ⊢
    rcases ih (step acc e) hflag with h1 | ⟨x, hx1, hx2⟩
    · rcases hstep acc e with h2 | ⟨_, x, hx1, hx2⟩
      · rw [h2] at h1; exact Or.inl h1
      · refine Or.inr ⟨x, hx1, ?_⟩
        exact foldl_acc_mono step hmono rest (step acc e) hx2
    · refine Or.inr ⟨x, fun hc => hx1 (hmono acc e hc), hx2⟩

/-! ## Step facts for the three passes of `propagateBlockingStatus` -/

theorem pass1step_mono (acc : Finset String × Bool) (e : String × List String) :
    acc.1 ⊆ (EslintConfig.pass1step acc e).1 := by
  unfold EslintConfig.pass1step
  split_ifs with h1 h2
  · exact Finset.Subset.refl _
  · exact Finset.subset_insert _ _
  · exact Finset.Subset.refl _

theorem pass1step_flag (acc : Finset String × Bool) (e : String × List String)
    (h : acc.2 = true) : (EslintConfig.pass1step acc e).2 = true := by
  unfold EslintConfig.pass1step
  split_ifs <;> simp [h]

theorem pass1step_closed (acc : Finset String × Bool) (e : String × List String)
    (h : (EslintConfig.pass1step acc e).2 = false) :
    EslintConfig.pass1step acc e = acc ∧ (∀ c ∈ e.2, c ∈ acc.1 → e.1 ∈ acc.1) := by
  unfold EslintConfig.pass1step at h ⊢
  split_ifs at h ⊢ with h1 h2
  · exact ⟨rfl, fun c _ _ => h1⟩
  · refine ⟨rfl, fun c hc hcm => absurd ?_ h2⟩
    exact List.any_eq_true.mpr ⟨c, hc, by simpa using hcm⟩

theorem pass1step_subset (acc : Finset String × Bool) (e : String × List String) :
    (EslintConfig.pass1step acc e).1 ⊆ insert e.1 acc.1 := by
  unfold EslintConfig.pass1step
  split_ifs with h1 h2
  · exact Finset.subset_insert _ _
  · exact Finset.Subset.refl _
  · exact Finset.subset_insert _ _

theorem pass1step_dichot (acc : Finset String × Bool) (e : String × List String) :
    EslintConfig.pass1step acc e = acc ∨
    ((EslintConfig.pass1step acc e).2 = true ∧
      ∃ x, x ∉ acc.1 ∧ x ∈ (EslintConfig.pass1step acc e).1) := by
  unfold EslintConfig.pass1step
  split_ifs with h1 h2
  · exact Or.inl rfl
  · exact Or.inr ⟨rfl, e.1, h1, Finset.mem_insert_self _ _⟩
  · exact Or.inl rfl

theorem pass2step_mono (af : List (String × List String))
    (acc : Finset String × Bool) (e : String × String × String) :
    acc.1 ⊆ (EslintConfig.pass2step af acc e).1 := by
  unfold EslintConfig.pass2step
  split_ifs with h1 h2
  · exact Finset.Subset.refl _
  · exact Finset.subset_insert _ _
  · exact Finset.Subset.refl _

theorem pass2step_flag (af : List (String × List String))
    (acc : Finset String × Bool) (e : String × String × String)
    (h : acc.2 = true) : (EslintConfig.pass2step af acc e).2 = true := by
  unfold EslintConfig.pass2step
  split_ifs <;> simp [h]

theorem pass2step_closed (af : List (String × List String))
    (acc : Finset String × Bool) (e : String × String × String)
    (h : (EslintConfig.pass2step af acc e).2 = false) :
    EslintConfig.pass2step af acc e = acc ∧
      (EslintConfig.directBlockingIn af e.2.1 e.2.2 = true → e.1 ∈ acc.1) := by
  unfold EslintConfig.pass2step at h ⊢
  split_ifs at h ⊢ with h1 h2
  · exact ⟨rfl, fun _ => h2⟩
  · exact ⟨rfl, fun hdb => absurd hdb h1⟩

theorem pass2step_subset (af : List (String × List String))
    (acc : Finset String × Bool) (e : String × String × String) :
    (EslintConfig.pass2step af acc e).1 ⊆ insert e.1 acc.1 := by
  unfold EslintConfig.pass2step
  split_ifs with h1 h2
  · exact Finset.subset_insert _ _
  · exact Finset.Subset.refl _
  · exact Finset.subset_insert _ _

theorem pass2step_dichot (af : List (String × List String))
    (acc : Finset String × Bool) (e : String × String × String) :
    EslintConfig.pass2step af acc e = acc ∨
    ((EslintConfig.pass2step af acc e).2 = true ∧
      ∃ x, x ∉ acc.1 ∧ x ∈ (EslintConfig.pass2step af acc e).1) := by
  unfold EslintConfig.pass2step
  split_ifs with h1 h2
  · exact Or.inl rfl
  · exact Or.inr ⟨rfl, e.1, h2, Finset.mem_insert_self _ _⟩
  · exact Or.inl rfl

theorem pass3step_mono (im : List (String × String × String))
    (af : List (String × List String))
    (acc : Finset String × Bool) (e : String × List String) :
    acc.1 ⊆ (EslintConfig.pass3step im af acc e).1 := by
  unfold EslintConfig.pass3step
  split_ifs with h1 h2
  · exact Finset.Subset.refl _
  · exact Finset.subset_insert _ _
  · exact Finset.Subset.refl _

theorem pass3step_flag (im : List (String × String × String))
    (af : List (String × List String))
    (acc : Finset String × Bool) (e : String × List String)
    (h : acc.2 = true) : (EslintConfig.pass3step im af acc e).2 = true := by
  unfold EslintConfig.pass3step
  split_ifs <;> simp [h]

theorem pass3step_unchanged (im : List (String × String × String))
    (af : List (String × List String))
    (acc : Finset String × Bool) (e : String × List String)
    (h : (EslintConfig.pass3step im af acc e).2 = false) :
    EslintConfig.pass3step im af acc e = acc := by
  unfold EslintConfig.pass3step at h ⊢
  split_ifs at h ⊢
  · rfl
  · rfl

theorem pass3step_subset (im : List (String × String × String))
    (af : List (String × List String))
    (acc : Finset String × Bool) (e : String × List String) :
    (EslintConfig.pass3step im af acc e).1 ⊆ insert e.1 acc.1 := by
  unfold EslintConfig.pass3step
  split_ifs with h1 h2
  · exact Finset.subset_insert _ _
  · exact Finset.Subset.refl _
  · exact Finset.subset_insert _ _

theorem pass3step_dichot (im : List (String × String × String))
    (af : List (String × List String))
    (acc : Finset String × Bool) (e : String × List String) :
    EslintConfig.pass3step im af acc e = acc ∨
    ((EslintConfig.pass3step im af acc e).2 = true ∧
      ∃ x, x ∉ acc.1 ∧ x ∈ (EslintConfig.pass3step im af acc e).1) := by
  unfold EslintConfig.pass3step
  split_ifs with h1 h2
  · exact Or.inl rfl
  · exact Or.inr ⟨rfl, e.1, h1, Finset.mem_insert_self _ _⟩
  · exact Or.inl rfl

/-! ## Pass-level and `onePass` lemmas -/

theorem pass1_mono (fc : List (String × List String)) (acc : Finset String × Bool) :
    acc.1 ⊆ (EslintConfig.pass1 fc acc).1 :=
  foldl_acc_mono _ pass1step_mono fc acc

theorem pass2_mono (im : List (String × String × String))
    (af : List (String × List String)) (acc : Finset String × Bool) :
    acc.1 ⊆ (EslintConfig.pass2 im af acc).1 :=
  foldl_acc_mono _ (pass2step_mono af) im acc

theorem pass3_mono (fc : List (String × List String))
    (im : List (String × String × String)) (af : List (String × List String))
    (acc : Finset String × Bool) :
    acc.1 ⊆ (EslintConfig.pass3 fc im af acc).1 :=
  foldl_acc_mono _ (pass3step_mono im af) fc acc

theorem onePass_mono (st : EslintConfig.PState) :
    st.blockingFunctions ⊆ (EslintConfig.onePass st).1 := by
  unfold EslintConfig.onePass
  exact (pass1_mono st.functionCalls (st.blockingFunctions, false)).trans
    ((pass2_mono st.importMap st.analyzedFiles _).trans
      (pass3_mono st.functionCalls st.importMap st.analyzedFiles _))

theorem onePass_flag_false_closure (st : EslintConfig.PState)
    (h : (EslintConfig.onePass st).2 = false) :
    (EslintConfig.onePass st).1 = st.blockingFunctions ∧
    (∀ e ∈ st.functionCalls, ∀ c ∈ e.2,
      c ∈ st.blockingFunctions → e.1 ∈ st.blockingFunctions) ∧
    (∀ a ∈ st.importMap,
      EslintConfig.directBlockingIn st.analyzedFiles a.2.1 a.2.2 = true →
        a.1 ∈ st.blockingFunctions) := by
  have h3 : EslintConfig.onePass st =
      EslintConfig.pass2 st.importMap st.analyzedFiles
        (EslintConfig.pass1 st.functionCalls (st.blockingFunctions, false)) :=
    foldl_unchanged_of_flag_false _
      (pass3step_unchanged st.importMap st.analyzedFiles) st.functionCalls _ h
  have h2flag : (EslintConfig.pass2 st.importMap st.analyzedFiles
      (EslintConfig.pass1 st.functionCalls (st.blockingFunctions, false))).2 = false := by
    rw [← h3]; exact h
  have h2 : EslintConfig.pass2 st.importMap st.analyzedFiles
      (EslintConfig.pass1 st.functionCalls (st.blockingFunctions, false)) =
      EslintConfig.pass1 st.functionCalls (st.blockingFunctions, false) :=
    foldl_unchanged_of_flag_false _
      (fun a b hb => (pass2step_closed st.analyzedFiles a b hb).1) st.importMap _ h2flag
  have h1flag : (EslintConfig.pass1 st.functionCalls
      (st.blockingFunctions, false)).2 = false := by
    rw [← h2]; exact h2flag
  have h1 : EslintConfig.pass1 st.functionCalls (st.blockingFunctions, false) =
      (st.blockingFunctions, false) :=
    foldl_unchanged_of_flag_false _
      (fun a b hb => (pass1step_closed a b hb).1) st.functionCalls _ h1flag
  refine ⟨?_, ?_, ?_⟩
  · rw [h3, h2, h1]
  · have := foldl_closed_of_flag_false _
      (fun B e => ∀ c ∈ e.2, c ∈ B → e.1 ∈ B) pass1step_closed
      st.functionCalls (st.blockingFunctions, false) h1flag
    exact this
  · have := foldl_closed_of_flag_false _
      (fun B a => EslintConfig.directBlockingIn st.analyzedFiles a.2.1 a.2.2 = true →
        a.1 ∈ B)
      (pass2step_closed st.analyzedFiles) st.importMap _ h2flag
    rw [h1] at this
    exact this

theorem onePass_subset (st : EslintConfig.PState) :
    (EslintConfig.onePass st).1 ⊆
      st.blockingFunctions ∪ EslintConfig.candidates st := by
  have s1 := foldl_subset_union _ Prod.fst pass1step_subset st.functionCalls
    (st.blockingFunctions, false)
  have s2 := foldl_subset_union _ Prod.fst (pass2step_subset st.analyzedFiles)
    st.importMap (EslintConfig.pass1 st.functionCalls (st.blockingFunctions, false))
  have s3 := foldl_subset_union _ Prod.fst
    (pass3step_subset st.importMap st.analyzedFiles) st.functionCalls
    (EslintConfig.pass2 st.importMap st.analyzedFiles
      (EslintConfig.pass1 st.functionCalls (st.blockingFunctions, false)))
  intro x hx
  have hx3 := s3 hx
  rcases Finset.mem_union.mp hx3 with hx4 | hx4
  · have hx5 := s2 hx4
    rcases Finset.mem_union.mp hx5 with hx6 | hx6
    · have hx7 := s1 hx6
      rcases Finset.mem_union.mp hx7 with hx8 | hx8
      · exact Finset.mem_union_left _ hx8
      · exact Finset.mem_union_right _ (Finset.mem_union_left _ hx8)
    · exact Finset.mem_union_right _ (Finset.mem_union_right _ hx6)
  · exact Finset.mem_union_right _ (Finset.mem_union_left _ hx4)

theorem onePass_strict (st : EslintConfig.PState)
    (h : (EslintConfig.onePass st).2 = true) :
    ∃ x, x ∉ st.blockingFunctions ∧ x ∈ (EslintConfig.onePass st).1 := by
  have hB1 := pass1_mono st.functionCalls (st.blockingFunctions, false)
  have hB2 := pass2_mono st.importMap st.analyzedFiles
    (EslintConfig.pass1 st.functionCalls (st.blockingFunctions, false))
  have hB3 := pass3_mono st.functionCalls st.importMap st.analyzedFiles
    (EslintConfig.pass2 st.importMap st.analyzedFiles
      (EslintConfig.pass1 st.functionCalls (st.blockingFunctions, false)))
  rcases foldl_new_elem_of_flag _ (pass3step_mono st.importMap st.analyzedFiles)
      (pass3step_dichot st.importMap st.analyzedFiles) st.functionCalls _ h with
    h2 | ⟨x, hx1, hx2⟩
  · rcases foldl_new_elem_of_flag _ (pass2step_mono st.analyzedFiles)
        (pass2step_dichot st.analyzedFiles) st.importMap _ h2 with
      h1 | ⟨x, hx1, hx2⟩
    · rcases foldl_new_elem_of_flag _ pass1step_mono pass1step_dichot
          st.functionCalls (st.blockingFunctions, false) h1 with
        h0 | ⟨x, hx1, hx2⟩
      · simp at h0
      · exact ⟨x, hx1, hB3 (hB2 hx2)⟩
    · exact ⟨x, fun hc => hx1 (hB1 hc), hB3 hx2⟩
  · exact ⟨x, fun hc => hx1 (hB2 (hB1 hc)), hx2⟩

/-! ## `propagateN` lemmas: the fixed-point loop -/

theorem propagateN_fields (n : Nat) (st : EslintConfig.PState) :
    (EslintConfig.propagateN n st).1.functionCalls = st.functionCalls ∧
    (EslintConfig.propagateN n st).1.importMap = st.importMap ∧
    (EslintConfig.propagateN n st).1.analyzedFiles = st.analyzedFiles := by
  induction n generalizing st with
  | zero => exact ⟨rfl, rfl, rfl⟩
  | succ n ih =>
    simp only [EslintConfig.propagateN]
    by_cases hp : (EslintConfig.onePass st).2 = true
    · simp only [hp, if_true]
      exact ih _
    · simp only [Bool.not_eq_true] at hp
      simp only [hp, Bool.false_eq_true, if_false]
      refine ⟨by trivial, by trivial, by trivial⟩

theorem propagateN_mono (n : Nat) (st : EslintConfig.PState) :
    st.blockingFunctions ⊆ (EslintConfig.propagateN n st).1.blockingFunctions := by
  induction n generalizing st with
  | zero => exact Finset.Subset.refl _
  | succ n ih =>
    simp only [EslintConfig.propagateN]
    by_cases hp : (EslintConfig.onePass st).2 = true
    · simp only [hp, if_true]
      exact (onePass_mono st).trans
        (ih { st with blockingFunctions := (EslintConfig.onePass st).1 })
    · simp only [Bool.not_eq_true] at hp
      simp only [hp, Bool.false_eq_true, if_false]
      exact onePass_mono st

theorem propagateN_reaches :
    ∀ (n : Nat) (st : EslintConfig.PState), EslintConfig.bound st < n →
      (EslintConfig.propagateN n st).2 = true := by
  intro n
  induction n with
  | zero => intro st h; omega
  | succ n ih =>
    intro st h
    simp only [EslintConfig.propagateN]
    by_cases hp : (EslintConfig.onePass st).2 = true
    · simp only [hp, if_true]
      obtain ⟨x, hx1, hx2⟩ := onePass_strict st hp
      have hxc : x ∈ EslintConfig.candidates st := by
        rcases Finset.mem_union.mp (onePass_subset st hx2) with h1 | h1
        · exact absurd h1 hx1
        · exact h1
      apply ih
      have hsub : EslintConfig.candidates st \ (EslintConfig.onePass st).1 ⊂
          EslintConfig.candidates st \ st.blockingFunctions := by
        constructor
        · intro y hy
          rcases Finset.mem_sdiff.mp hy with ⟨hy1, hy2⟩
          exact Finset.mem_sdiff.mpr ⟨hy1, fun hc => hy2 (onePass_mono st hc)⟩
        · intro hcon
          have hx3 : x ∈ EslintConfig.candidates st \ st.blockingFunctions :=
            Finset.mem_sdiff.mpr ⟨hxc, hx1⟩
          have hx4 := hcon hx3
          exact (Finset.mem_sdiff.mp hx4).2 hx2
      have hlt : (EslintConfig.candidates st \ (EslintConfig.onePass st).1).card <
          (EslintConfig.candidates st \ st.blockingFunctions).card :=
        Finset.card_lt_card hsub
      have hb : EslintConfig.bound
          { st with blockingFunctions := (EslintConfig.onePass st).1 } =
          (EslintConfig.candidates st \ (EslintConfig.onePass st).1).card := rfl
      rw [hb]
      unfold EslintConfig.bound at h
      omega
    · simp only [Bool.not_eq_true] at hp
      simp only [hp, Bool.false_eq_true, if_false]

theorem propagateN_fixed :
    ∀ (n : Nat) (st : EslintConfig.PState), (EslintConfig.propagateN n st).2 = true →
      EslintConfig.onePass (EslintConfig.propagateN n st).1 =
        ((EslintConfig.propagateN n st).1.blockingFunctions, false) := by
  intro n
  induction n with
  | zero => intro st h; simp [EslintConfig.propagateN] at h
  | succ n ih =>
    intro st h
    simp only [EslintConfig.propagateN] at h ⊢
    by_cases hp : (EslintConfig.onePass st).2 = true
    · simp only [hp, if_true] at h ⊢
      exact ih _ h
    · simp only [Bool.not_eq_true] at hp
      simp only [hp, Bool.false_eq_true, if_false]
      have hcl := onePass_flag_false_closure st hp
      have hst : ({ st with blockingFunctions := (EslintConfig.onePass st).1 } :
          EslintConfig.PState) = st := by
        rw [hcl.1]
      rw [hst]
      exact Prod.ext rfl hp

/-! ## Preservation and termination of the guarded `markAsBlocking`
(`part_000`/`part_001`) -/

theorem p01_pres_refl (st : P01.AState) (vis : Finset String) :
    P01.Pres st vis (st, vis) :=
  ⟨rfl, rfl, Finset.Subset.refl _, fun _ hx => hx, fun _ _ h => h⟩

theorem p01_pres_trans {st st1 : P01.AState} {vis vis1 : Finset String}
    {r : P01.AState × Finset String}
    (h1 : P01.Pres st vis (st1, vis1)) (h2 : P01.Pres st1 vis1 r) :
    P01.Pres st vis r := by
  obtain ⟨a1, b1, c1, d1, e1⟩ := h1
  obtain ⟨a2, b2, c2, d2, e2⟩ := h2
  exact ⟨a2.trans a1, b2.trans b1, c1.trans c2,
    fun x hx => d2 x (d1 x hx), fun g loc hg => e2 g loc (e1 g loc hg)⟩

/-- The location-inheritance update inside the loop preserves `Pres`
relative to the state it starts from. -/
theorem p01_locUpdate_pres (st1 : P01.AState) (vis1 : Finset String)
    (caller funcName : String) :
    P01.Pres st1 vis1
      ((if (lookupA st1.functionLocations caller).isNone then
          match lookupA st1.functionLocations funcName with
          | some loc =>
            let fl := setA st1.functionLocations caller loc
            { st1 with functionLocations := fl }
          | none => st1
        else st1), vis1) := by
  by_cases hl : (lookupA st1.functionLocations caller).isNone
  · rw [if_pos hl]
    cases hf : lookupA st1.functionLocations funcName with
    | none => exact p01_pres_refl _ _
    | some loc =>
      refine ⟨rfl, rfl, Finset.Subset.refl _, fun _ hx => hx, ?_⟩
      intro g l hg
      have hgc : g ≠ caller := by
        intro hgc
        rw [hgc] at hg
        rw [Option.isNone_iff_eq_none] at hl
        rw [hl] at hg
        cases hg
      show lookupA (setA st1.functionLocations caller loc) g = some l
      rw [lookupA_setA_other _ _ _ _ hgc]
      exact hg
  · rw [if_neg hl]
    exact p01_pres_refl _ _

theorem p01_markLoopF_pres
    (rec : String → P01.AState → Finset String → Option (P01.AState × Finset String))
    (hrec : ∀ c st vis r, rec c st vis = some r → P01.Pres st vis r)
    (funcName : String) :
    ∀ (entries : List (String × List String)) (st : P01.AState)
      (vis : Finset String) (r : P01.AState × Finset String),
      P01.markLoopF rec funcName entries st vis = some r → P01.Pres st vis r := by
  intro entries
  induction entries with
  | nil =>
    intro st vis r h
    rw [P01.markLoopF] at h
    cases h
    exact p01_pres_refl _ _
  | cons e rest ih =>
    intro st vis r h
    obtain ⟨caller, callees⟩ := e
    rw [P01.markLoopF] at h
    by_cases hc : funcName ∈ callees
    · rw [if_pos hc] at h
      cases hrec0 : rec caller st vis with
      | none => rw [hrec0] at h; cases h
      | some r1 =>
        rw [hrec0] at h
        obtain ⟨st1, vis1⟩ := r1
        simp only at h
        have hp1 : P01.Pres st vis (st1, vis1) := hrec _ _ _ _ hrec0
        have hp2 := p01_locUpdate_pres st1 vis1 caller funcName
        exact p01_pres_trans hp1 (p01_pres_trans hp2 (ih _ _ _ h))
    · rw [if_neg hc] at h
      exact ih _ _ _ h

theorem p01_mark_pres :
    ∀ (n : Nat) (f : String) (st : P01.AState) (vis : Finset String)
      (r : P01.AState × Finset String),
      P01.markAsBlocking n f st vis = some r → P01.Pres st vis r := by
  intro n
  induction n with
  | zero => intro f st vis r h; cases h
  | succ n ih =>
    intro f st vis r h
    rw [P01.markAsBlocking] at h
    by_cases hv : f ∈ vis
    · rw [if_pos hv] at h
      cases h
      exact p01_pres_refl _ _
    · rw [if_neg hv] at h
      have hstep : P01.Pres st vis
          ({ st with blockingFunctions := insertName f st.blockingFunctions },
            insert f vis) :=
        ⟨rfl, rfl, Finset.subset_insert _ _, fun x hx => subset_insertName f _ x hx,
          fun _ _ hg => hg⟩
      exact p01_pres_trans hstep
        (p01_markLoopF_pres (P01.markAsBlocking n) (ih) f _ _ _ _ h)

theorem p01_markLoopF_isSome
    (rec : String → P01.AState → Finset String → Option (P01.AState × Finset String))
    (hrec_pres : ∀ c st vis r, rec c st vis = some r → P01.Pres st vis r)
    (st0 : P01.AState) (vis0 : Finset String)
    (hterm : ∀ c st vis, c ∈ P01.callers st0 →
      st.functionCalls = st0.functionCalls → vis0 ⊆ vis →
      (rec c st vis).isSome = true)
    (funcName : String) :
    ∀ (entries : List (String × List String)) (st : P01.AState) (vis : Finset String),
      (∀ e ∈ entries, e.1 ∈ P01.callers st0) →
      st.functionCalls = st0.functionCalls → vis0 ⊆ vis →
      (P01.markLoopF rec funcName entries st vis).isSome = true := by
  intro entries
  induction entries with
  | nil =>
    intro st vis _ _ _
    rw [P01.markLoopF]
    rfl
  | cons e rest ih =>
    intro st vis hk hfc hvis
    obtain ⟨caller, callees⟩ := e
    rw [P01.markLoopF]
    by_cases hc : funcName ∈ callees
    · rw [if_pos hc]
      have h1 : (rec caller st vis).isSome = true :=
        hterm caller st vis (hk _ (List.mem_cons_self _ _)) hfc hvis
      cases hrec0 : rec caller st vis with
      | none => rw [hrec0] at h1; cases h1
      | some r1 =>
        obtain ⟨st1, vis1⟩ := r1
        simp only
        have hp := hrec_pres _ _ _ _ hrec0
        have hp2 := p01_locUpdate_pres st1 vis1 caller funcName
        apply ih
        · intro e he
          exact hk e (List.mem_cons_of_mem _ he)
        · exact hp2.1.trans (hp.1.trans hfc)
        · exact hvis.trans hp.2.2.1
    · rw [if_neg hc]
      exact ih st vis (fun e he => hk e (List.mem_cons_of_mem _ he)) hfc hvis

theorem p01_mark_isSome :
    ∀ (n : Nat) (f : String) (st : P01.AState) (vis : Finset String),
      (insert f (P01.callers st) \ vis).card < n →
      (P01.markAsBlocking n f st vis).isSome = true := by
  intro n
  induction n with
  | zero => intro f st vis h; exact absurd h (Nat.not_lt_zero _)
  | succ n ih =>
    intro f st vis h
    rw [P01.markAsBlocking]
    by_cases hv : f ∈ vis
    · rw [if_pos hv]; rfl
    · rw [if_neg hv]
      have hfin : f ∈ insert f (P01.callers st) \ vis :=
        Finset.mem_sdiff.mpr ⟨Finset.mem_insert_self _ _, hv⟩
      apply p01_markLoopF_isSome (P01.markAsBlocking n) (p01_mark_pres n) st
        (insert f vis)
      · intro c st' vis' hcK hfc' hvis'
        apply ih
        have hcall : P01.callers st' = P01.callers st := by
          unfold P01.callers
          rw [hfc']
        have hins : insert c (P01.callers st') = P01.callers st := by
          rw [hcall]
          exact Finset.insert_eq_self.mpr hcK
        rw [hins]
        have hsub : P01.callers st \ vis' ⊆
            (insert f (P01.callers st) \ vis).erase f := by
          intro x hx
          rcases Finset.mem_sdiff.mp hx with ⟨hx1, hx2⟩
          have hxf : x ≠ f := by
            intro hxf
            exact hx2 (hvis' (by rw [hxf]; exact Finset.mem_insert_self _ _))
          refine Finset.mem_erase.mpr ⟨hxf, Finset.mem_sdiff.mpr ⟨?_, ?_⟩⟩
          · exact Finset.mem_insert_of_mem hx1
          · intro hxv
            exact hx2 (hvis' (Finset.mem_insert_of_mem hxv))
        have hcard1 : (P01.callers st \ vis').card ≤
            ((insert f (P01.callers st) \ vis).erase f).card :=
          Finset.card_le_card hsub
        have hcard2 : ((insert f (P01.callers st) \ vis).erase f).card =
            (insert f (P01.callers st) \ vis).card - 1 :=
          Finset.card_erase_of_mem hfin
        have hcard3 : 1 ≤ (insert f (P01.callers st) \ vis).card :=
          Finset.card_pos.mpr ⟨f, hfin⟩
        omega
      · intro e he
        unfold P01.callers
        rw [List.mem_toFinset]
        exact List.mem_map.mpr ⟨e, he, rfl⟩
      · rfl
      · exact Finset.Subset.refl _

/-! ## Claim theorems: C1, C2, C6, C10 -/

/-- **C1, amended.**  After `propagateBlockingStatus` of
`src/eslint.config.ts` runs to its fixed point (any iteration budget above
`bound st` suffices), the Blocking Set is closed: for every recorded call
edge `(a, b)` in the call map — whatever callee shape the builder recorded
it from — with `b` blocking, `a` is blocking; and for every import alias
`local → (M, name)` with `name` in module `M`'s direct-blocking set, `local`
is blocking.  (The event-driven `markAsBlocking` propagation of
`src/analyzer.ts` does not guarantee this for call edges recorded from
member-access callees; see the counterexample.) -/
theorem claim_C1_closure_after_propagation (st : EslintConfig.PState) (n : Nat)
    (h : EslintConfig.bound st < n) :
    (∀ e ∈ (EslintConfig.propagateN n st).1.functionCalls, ∀ c ∈ e.2,
      c ∈ (EslintConfig.propagateN n st).1.blockingFunctions →
      e.1 ∈ (EslintConfig.propagateN n st).1.blockingFunctions) ∧
    (∀ a ∈ (EslintConfig.propagateN n st).1.importMap,
      EslintConfig.directBlockingIn
        (EslintConfig.propagateN n st).1.analyzedFiles a.2.1 a.2.2 = true →
      a.1 ∈ (EslintConfig.propagateN n st).1.blockingFunctions) := by
  have hreach := propagateN_reaches n st h
  have hfix := propagateN_fixed n st hreach
  have hflag : (EslintConfig.onePass (EslintConfig.propagateN n st).1).2 = false := by
    rw [hfix]
  have hcl := onePass_flag_false_closure _ hflag
  exact ⟨hcl.2.1, hcl.2.2⟩

/-- Witness for C1: on `c1WitnessState`, closure makes the caller `a` of the
blocking `b` blocking after propagation. -/
theorem claim_C1_witness :
    "a" ∈ (EslintConfig.propagateN 3 c1WitnessState).1.blockingFunctions :=
  (claim_C1_closure_after_propagation c1WitnessState 3 (by decide)).1
    ("a", ["b"]) (by decide) "b" (by decide) (by decide)

/-- **C2, amended.**  The pass-repeat loop of `propagateBlockingStatus`
reaches its fixed point within `bound st + 1` iterations (`bound st` is the
number of candidate names not yet blocking, at most the number of distinct
names observed); and the guarded `markAsBlocking` of `part_000`/`part_001`
terminates on EVERY input — including cyclic call graphs — within recursion
depth `|insert f (callers st) \ visited| + 1`.  (The `markAsBlocking` of
`src/analyzer.ts` carries no visited guard and recurses unboundedly on call
cycles; see the counterexample.) -/
theorem claim_C2_termination :
    (∀ (st : EslintConfig.PState) (n : Nat), EslintConfig.bound st < n →
      (EslintConfig.propagateN n st).2 = true) ∧
    (∀ (f : String) (st : P01.AState) (vis : Finset String),
      (P01.markAsBlocking ((insert f (P01.callers st) \ vis).card + 1)
        f st vis).isSome = true) := by
  constructor
  · intro st n h
    exact propagateN_reaches n st h
  · intro f st vis
    exact p01_mark_isSome _ f st vis (Nat.lt_succ_self _)

/-- Witness for C2: the loop on `c1WitnessState` reaches its fixed point
within the bound, and the guarded marking terminates on the `c10State`
graph. -/
theorem claim_C2_witness :
    (EslintConfig.propagateN 3 c1WitnessState).2 = true ∧
    (P01.markAsBlocking 2 "b" c10State ∅).isSome = true := by
  constructor
  · exact claim_C2_termination.1 c1WitnessState 3 (by decide)
  · have h := claim_C2_termination.2 "b" c10State ∅
    exact h

/-- **C6.**  Per-module error recovery in `analyzeFile` of `part_001`: a
module whose read fails contributes an empty direct-blocking set and leaves
the analyzer state unchanged (only the visited set records the path), and
the run continues with sibling modules: in the `c6Env` scenario the broken
sibling `./bad.ts` does not stop `./good.ts` from being analyzed, `g` is
found blocking, and the whole run terminates with an answer. -/
theorem claim_C6_error_recovery :
    (∀ (n : Nat) (env : String → Option P01.ModuleSrc) (p : String)
      (visited : List String) (st : P01.AState),
      ¬ p ∈ visited → env p = none →
      P01.analyzeFile env (n + 1) p visited st = some ([], p :: visited, st)) ∧
    (P01.analyzeFile c6Env 10 "/r/root.ts" [] c6Init =
      some ([], ["/r/good.ts", "/r/bad.ts", "/r/root.ts"], c6Final) ∧
     "g" ∈ c6Final.blockingFunctions ∧ "w" ∈ c6Final.blockingFunctions ∧
     lookupA c6Final.analyzedFiles "/r/bad.ts" = none) := by
  constructor
  · intro n env p visited st hv he
    rw [P01.analyzeFile]
    rw [if_neg hv]
    simp only [he]
  · refine ⟨by decide, by decide, by decide, by decide⟩

/-- Witness for C6: the recovery clause at a concrete broken module. -/
theorem claim_C6_witness :
    P01.analyzeFile c6Env 3 "/r/missing.ts" [] c6Init =
      some ([], ["/r/missing.ts"], c6Init) :=
  claim_C6_error_recovery.1 2 c6Env "/r/missing.ts" [] c6Init
    (by decide) (by rfl)

/-- **C10.**  Location inheritance during the guarded `markAsBlocking` of
`part_000`/`part_001`: an already-recorded location is never changed, and a
caller marked blocking with no recorded location inherits the location of
the blocking callee it was reached from — on `c10State`, `a` (which had no
location) ends up with `b`'s file/line/column, so `locationOf("a")` names a
different function's definition site. -/
theorem claim_C10_location_inheritance :
    (∀ (n : Nat) (f : String) (st : P01.AState) (vis : Finset String)
      (r : P01.AState × Finset String),
      P01.markAsBlocking n f st vis = some r →
      ∀ g loc, lookupA st.functionLocations g = some loc →
        lookupA r.1.functionLocations g = some loc) ∧
    (P01.markAsBlocking 5 "b" c10State ∅ =
      some (c10Final, insert "a" (insert "b" (∅ : Finset String))) ∧
     lookupA c10State.functionLocations "a" = none ∧
     lookupA c10Final.functionLocations "a" = some ⟨"/m/b.ts", 3, 1⟩ ∧
     lookupA c10Final.functionLocations "b" = some ⟨"/m/b.ts", 3, 1⟩) := by
  constructor
  · intro n f st vis r h
    exact (p01_mark_pres n f st vis r h).2.2.2.2
  · refine ⟨by decide, by decide, by decide, by decide⟩

/-- Witness for C10: the preservation clause applied to the concrete
`c10State` marking (`b`'s recorded location survives). -/
theorem claim_C10_witness :
    lookupA c10Final.functionLocations "b" = some ⟨"/m/b.ts", 3, 1⟩ :=
  claim_C10_location_inheritance.1 5 "b" c10State ∅
    (c10Final, insert "a" (insert "b" (∅ : Finset String)))
    (by decide) "b" ⟨"/m/b.ts", 3, 1⟩ (by decide)

/-! ## Monotonicity of the Blocking Set across the analyzer's operations -/

theorem addFunctionCall_blocking (caller callee : String) (st : Analyzer.AState) :
    (Analyzer.addFunctionCall caller callee st).blockingFunctions =
      st.blockingFunctions := by
  unfold Analyzer.addFunctionCall
  cases lookupA st.functionCalls caller <;> rfl

theorem analyzer_markLoopF_mono
    (rec : String → Analyzer.AState → Option Analyzer.AState)
    (hrec : ∀ c st st', rec c st = some st' →
      ∀ x ∈ st.blockingFunctions, x ∈ st'.blockingFunctions)
    (funcName : String) :
    ∀ (entries : List (String × List String)) (st st' : Analyzer.AState),
      Analyzer.markLoopF rec funcName entries st = some st' →
      ∀ x ∈ st.blockingFunctions, x ∈ st'.blockingFunctions := by
  intro entries
  induction entries with
  | nil =>
    intro st st' h
    rw [Analyzer.markLoopF] at h
    cases h
    exact fun x hx => hx
  | cons e rest ih =>
    intro st st' h
    obtain ⟨caller, callees⟩ := e
    rw [Analyzer.markLoopF] at h
    by_cases hc : funcName ∈ callees
    · rw [if_pos hc] at h
      cases hrec0 : rec caller st with
      | none => rw [hrec0] at h; cases h
      | some st1 =>
        rw [hrec0] at h
        exact fun x hx => ih st1 st' h x (hrec _ _ _ hrec0 x hx)
    · rw [if_neg hc] at h
      exact ih st st' h

theorem analyzer_mark_mono :
    ∀ (n : Nat) (f : String) (st st' : Analyzer.AState),
      Analyzer.markAsBlocking n f st = some st' →
      ∀ x ∈ st.blockingFunctions, x ∈ st'.blockingFunctions := by
  intro n
  induction n with
  | zero => intro f st st' h; cases h
  | succ n ih =>
    intro f st st' h
    rw [Analyzer.markAsBlocking] at h
    intro x hx
    exact analyzer_markLoopF_mono (Analyzer.markAsBlocking n) ih f _ _ _ h x
      (subset_insertName f _ x hx)

theorem analyzer_handleCall_mono (fuel : Nat) (f : String) (c : Analyzer.Callee)
    (ast : Analyzer.AState) (fb : List String)
    (r : Analyzer.AState × List String)
    (h : Analyzer.handleCall fuel f c ast fb = some r) :
    ∀ x ∈ ast.blockingFunctions, x ∈ r.1.blockingFunctions := by
  unfold Analyzer.handleCall at h
  cases c with
  | identC name =>
    simp only at h
    by_cases hb : name ∈ (Analyzer.addFunctionCall f name ast).blockingFunctions
    · rw [if_pos hb] at h
      cases hm : Analyzer.markAsBlocking fuel f (Analyzer.addFunctionCall f name ast) with
      | none => rw [hm] at h; cases h
      | some ast' =>
        rw [hm] at h
        cases h
        intro x hx
        apply analyzer_mark_mono fuel f _ _ hm
        rw [addFunctionCall_blocking]
        exact hx
    · rw [if_neg hb] at h
      cases h
      intro x hx
      show x ∈ (Analyzer.addFunctionCall f name ast).blockingFunctions
      rw [addFunctionCall_blocking]
      exact hx
  | otherC => cases h; exact fun x hx => hx
  | member obj prop =>
    cases obj with
    | none =>
      cases prop with
      | none => cases h; exact fun x hx => hx
      | some p =>
        cases h
        intro x hx
        show x ∈ (Analyzer.addFunctionCall f p ast).blockingFunctions
        rw [addFunctionCall_blocking]
        exact hx
    | some o =>
      cases prop with
      | none => cases h; exact fun x hx => hx
      | some p =>
        simp only at h
        by_cases hd : o = "Deno" ∧ strEndsWith p "Sync"
        · rw [if_pos hd] at h
          cases hm : Analyzer.markAsBlocking fuel f ast with
          | none => rw [hm] at h; cases h
          | some ast' =>
            rw [hm] at h
            cases h
            exact analyzer_mark_mono fuel f _ _ hm
        · rw [if_neg hd] at h
          cases h
          intro x hx
          show x ∈ (Analyzer.addFunctionCall f p ast).blockingFunctions
          rw [addFunctionCall_blocking]
          exact hx

theorem analyzer_callSiteStep_mono (fuel : Nat) (node : Analyzer.Node)
    (cur1 : Option String) (ast : Analyzer.AState) (fb : List String)
    (r : Analyzer.AState × List String)
    (h : Analyzer.callSiteStep fuel node cur1 ast fb = some r) :
    ∀ x ∈ ast.blockingFunctions, x ∈ r.1.blockingFunctions := by
  unfold Analyzer.callSiteStep at h
  cases cur1 with
  | none =>
    cases node <;> (cases h; exact fun x hx => hx)
  | some f =>
    cases node with
    | callExpr c cs => exact analyzer_handleCall_mono fuel f c ast fb r h
    | funcDecl nm pos cs => cases h; exact fun x hx => hx
    | methodDecl nm pos cs => cases h; exact fun x hx => hx
    | varDeclFun nm pos cs => cases h; exact fun x hx => hx
    | otherNode cs => cases h; exact fun x hx => hx

theorem analyzer_visitListF_mono
    (recv : Analyzer.Node → Analyzer.VState → Option Analyzer.VState)
    (hrec : ∀ nd v v', recv nd v = some v' →
      ∀ x ∈ v.ast.blockingFunctions, x ∈ v'.ast.blockingFunctions) :
    ∀ (nodes : List Analyzer.Node) (v v' : Analyzer.VState),
      Analyzer.visitListF recv nodes v = some v' →
      ∀ x ∈ v.ast.blockingFunctions, x ∈ v'.ast.blockingFunctions := by
  intro nodes
  induction nodes with
  | nil =>
    intro v v' h
    rw [Analyzer.visitListF] at h
    cases h
    exact fun x hx => hx
  | cons nd rest ih =>
    intro v v' h
    rw [Analyzer.visitListF] at h
    cases h0 : recv nd v with
    | none => rw [h0] at h; cases h
    | some v1 =>
      rw [h0] at h
      exact fun x hx => ih v1 v' h x (hrec _ _ _ h0 x hx)

theorem analyzer_visit_mono :
    ∀ (fuel : Nat) (nd : Analyzer.Node) (v v' : Analyzer.VState),
      Analyzer.visit fuel nd v = some v' →
      ∀ x ∈ v.ast.blockingFunctions, x ∈ v'.ast.blockingFunctions := by
  intro fuel
  induction fuel with
  | zero => intro nd v v' h; cases h
  | succ n ih =>
    intro nd v v' h
    rw [Analyzer.visit] at h
    cases h0 : Analyzer.callSiteStep n nd (Analyzer.enterCur nd v.cur)
        v.ast v.fileBlocking with
    | none => rw [h0] at h; cases h
    | some r =>
      rw [h0] at h
      obtain ⟨ast2, fb2⟩ := r
      simp only at h
      cases h1 : Analyzer.visitListF (Analyzer.visit n) nd.children
          ⟨ast2, fb2, Analyzer.enterCur nd v.cur⟩ with
      | none => rw [h1] at h; cases h
      | some v1 =>
        rw [h1] at h
        cases h
        intro x hx
        exact analyzer_visitListF_mono (Analyzer.visit n) ih nd.children _ _ h1 x
          (analyzer_callSiteStep_mono n nd _ v.ast v.fileBlocking _ h0 x hx)

/-! ## Query preservation for `src/plugin.ts` -/

theorem plugin_qpres_refl (st : PluginTs.GState) (b : Bool) (vis : List String) :
    PluginTs.QPres st (b, st, vis) :=
  ⟨rfl, rfl, rfl, fun _ hx => hx⟩

theorem plugin_qpres_insert (st : PluginTs.GState) (b : Bool) (vis : List String)
    (name : String) :
    PluginTs.QPres st
      (b, { st with blockingFunctions := insertName name st.blockingFunctions },
        vis) :=
  ⟨rfl, rfl, rfl, fun x hx => subset_insertName name _ x hx⟩

theorem plugin_qpres_trans {st st1 : PluginTs.GState} {b1 b2 : Bool}
    {vis1 vis2 : List String}
    (h1 : PluginTs.QPres st (b1, st1, vis1))
    (h2 : PluginTs.QPres st1 (b2, st2, vis2)) :
    PluginTs.QPres st (b2, st2, vis2) := by
  obtain ⟨a1, c1, d1, e1⟩ := h1
  obtain ⟨a2, c2, d2, e2⟩ := h2
  exact ⟨a2.trans a1, c2.trans c1, d2.trans d1, fun x hx => e2 x (e1 x hx)⟩

theorem plugin_callLoopF_qpres
    (rec : String → List String → PluginTs.GState →
      Option (Bool × PluginTs.GState × List String))
    (hrec : ∀ c vis st r, rec c vis st = some r → PluginTs.QPres st r)
    (name : String) :
    ∀ (callees : List String) (st : PluginTs.GState) (vis : List String)
      (r : Bool × PluginTs.GState × List String),
      PluginTs.callLoopF rec name callees st vis = some r →
      PluginTs.QPres st r := by
  intro callees
  induction callees with
  | nil =>
    intro st vis r h
    rw [PluginTs.callLoopF] at h
    cases h
    exact plugin_qpres_refl _ _ _
  | cons c rest ih =>
    intro st vis r h
    rw [PluginTs.callLoopF] at h
    by_cases hv : c ∈ vis
    · rw [if_pos hv] at h
      exact ih st vis r h
    · rw [if_neg hv] at h
      cases h0 : rec c vis st with
      | none => rw [h0] at h; cases h
      | some r1 =>
        rw [h0] at h
        obtain ⟨b1, st1, vis1⟩ := r1
        cases b1 with
        | true =>
          simp only at h
          cases h
          exact plugin_qpres_trans (hrec _ _ _ _ h0)
            (plugin_qpres_insert st1 _ _ name)
        | false =>
          simp only at h
          exact plugin_qpres_trans (hrec _ _ _ _ h0) (ih st1 vis1 r h)

theorem plugin_isBlocking_qpres :
    ∀ (n : Nat) (name : String) (vis : List String) (st : PluginTs.GState)
      (r : Bool × PluginTs.GState × List String),
      PluginTs.isBlockingFunction n name vis st = some r →
      PluginTs.QPres st r := by
  intro n
  induction n with
  | zero => intro name vis st r h; cases h
  | succ n ih =>
    intro name vis st r h
    rw [PluginTs.isBlockingFunction] at h
    by_cases hv : name ∈ vis
    · rw [if_pos hv] at h
      cases h
      exact plugin_qpres_refl _ _ _
    · rw [if_neg hv] at h
      by_cases hb : name ∈ st.blockingFunctions
      · rw [if_pos hb] at h
        cases h
        exact plugin_qpres_refl _ _ _
      · rw [if_neg hb] at h
        by_cases hi : (match lookupA st.importMap name with
          | some (source, nm) =>
            EslintConfig.directBlockingIn st.analyzedFiles source nm
          | none => false) = true
        · rw [if_pos hi] at h
          cases h
          exact plugin_qpres_insert st _ _ name
        · rw [if_neg hi] at h
          cases hc : lookupA st.functionCalls name with
          | none =>
            rw [hc] at h
            cases h
            exact plugin_qpres_refl _ _ _
          | some callees =>
            rw [hc] at h
            exact plugin_callLoopF_qpres (PluginTs.isBlockingFunction n) ih
              name callees st _ r h

/-! ## Monotonicity for the `part_000`/`part_001` visitor and traversal -/

theorem visitListF_pred {σ : Type}
    (recv : Analyzer.Node → σ → Option σ) (P : σ → σ → Prop)
    (hrefl : ∀ v, P v v) (htrans : ∀ a b c, P a b → P b c → P a c)
    (hrec : ∀ nd v v', recv nd v = some v' → P v v') :
    ∀ (nodes : List Analyzer.Node) (v v' : σ),
      Analyzer.visitListF recv nodes v = some v' → P v v' := by
  intro nodes
  induction nodes with
  | nil =>
    intro v v' h
    rw [Analyzer.visitListF] at h
    cases h
    exact hrefl _
  | cons nd rest ih =>
    intro v v' h
    rw [Analyzer.visitListF] at h
    cases h0 : recv nd v with
    | none => rw [h0] at h; cases h
    | some v1 =>
      rw [h0] at h
      exact htrans _ _ _ (hrec _ _ _ h0) (ih v1 v' h)

theorem p01_addFunctionCall_blocking (caller callee : String) (st : P01.AState) :
    (P01.addFunctionCall caller callee st).blockingFunctions =
      st.blockingFunctions := by
  unfold P01.addFunctionCall
  cases lookupA st.functionCalls caller <;> rfl

theorem p01_handleCall_mono (fuel : Nat) (f : String) (c : Analyzer.Callee)
    (ast : P01.AState) (fb : List String) (r : P01.AState × List String)
    (h : P01.handleCall fuel f c ast fb = some r) :
    ∀ x ∈ ast.blockingFunctions, x ∈ r.1.blockingFunctions := by
  unfold P01.handleCall at h
  cases c with
  | identC name =>
    simp only at h
    by_cases hb : name ∈ (P01.addFunctionCall f name ast).blockingFunctions
    · rw [if_pos hb] at h
      cases hm : P01.markAsBlocking fuel f (P01.addFunctionCall f name ast) ∅ with
      | none => rw [hm] at h; cases h
      | some r1 =>
        rw [hm] at h
        cases h
        intro x hx
        apply (p01_mark_pres fuel f _ ∅ r1 hm).2.2.2.1
        rw [p01_addFunctionCall_blocking]
        exact hx
    · rw [if_neg hb] at h
      cases h
      intro x hx
      show x ∈ (P01.addFunctionCall f name ast).blockingFunctions
      rw [p01_addFunctionCall_blocking]
      exact hx
  | otherC => cases h; exact fun x hx => hx
  | member obj prop =>
    cases obj with
    | none =>
      cases prop with
      | none => cases h; exact fun x hx => hx
      | some p =>
        cases h
        intro x hx
        show x ∈ (P01.addFunctionCall f p ast).blockingFunctions
        rw [p01_addFunctionCall_blocking]
        exact hx
    | some o =>
      cases prop with
      | none => cases h; exact fun x hx => hx
      | some p =>
        simp only at h
        by_cases hd : o = "Deno" ∧ strEndsWith p "Sync"
        · rw [if_pos hd] at h
          cases hm : P01.markAsBlocking fuel f ast ∅ with
          | none => rw [hm] at h; cases h
          | some r1 =>
            rw [hm] at h
            cases h
            exact (p01_mark_pres fuel f ast ∅ r1 hm).2.2.2.1
        · rw [if_neg hd] at h
          cases h
          intro x hx
          show x ∈ (P01.addFunctionCall f p ast).blockingFunctions
          rw [p01_addFunctionCall_blocking]
          exact hx

theorem p01_callSiteStep_mono (fuel : Nat) (node : Analyzer.Node)
    (cur1 : Option String) (ast : P01.AState) (fb : List String)
    (r : P01.AState × List String)
    (h : P01.callSiteStep fuel node cur1 ast fb = some r) :
    ∀ x ∈ ast.blockingFunctions, x ∈ r.1.blockingFunctions := by
  unfold P01.callSiteStep at h
  cases cur1 with
  | none => cases node <;> (cases h; exact fun x hx => hx)
  | some f =>
    cases node with
    | callExpr c cs => exact p01_handleCall_mono fuel f c ast fb r h
    | funcDecl nm pos cs => cases h; exact fun x hx => hx
    | methodDecl nm pos cs => cases h; exact fun x hx => hx
    | varDeclFun nm pos cs => cases h; exact fun x hx => hx
    | otherNode cs => cases h; exact fun x hx => hx

theorem p01_enterNode_blocking (fp : String) (nd : Analyzer.Node)
    (v : P01.VState) :
    (P01.enterNode fp nd v).ast.blockingFunctions =
      v.ast.blockingFunctions := by
  unfold P01.enterNode
  cases nd with
  | funcDecl nm pos cs =>
    cases nm with
    | none => rfl
    | some fn => cases fn <;> rfl
  | methodDecl nm pos cs =>
    cases nm with
    | none => rfl
    | some fn => cases fn <;> rfl
  | varDeclFun nm pos cs => rfl
  | callExpr c cs => rfl
  | otherNode cs => rfl

theorem p01_visit_mono (fp : String) :
    ∀ (fuel : Nat) (nd : Analyzer.Node) (v v' : P01.VState),
      P01.visit fp fuel nd v = some v' →
      ∀ x ∈ v.ast.blockingFunctions, x ∈ v'.ast.blockingFunctions := by
  intro fuel
  induction fuel with
  | zero => intro nd v v' h; cases h
  | succ n ih =>
    intro nd v v' h
    rw [P01.visit] at h
    cases h0 : P01.callSiteStep n nd (P01.enterNode fp nd v).cur
        (P01.enterNode fp nd v).ast (P01.enterNode fp nd v).fileBlocking with
    | none => rw [h0] at h; cases h
    | some r =>
      rw [h0] at h
      obtain ⟨ast2, fb2⟩ := r
      simp only at h
      cases h1 : Analyzer.visitListF (P01.visit fp n) nd.children
          ⟨ast2, fb2, (P01.enterNode fp nd v).cur⟩ with
      | none => rw [h1] at h; cases h
      | some v1 =>
        rw [h1] at h
        cases h
        intro x hx
        have hx1 : x ∈ (P01.enterNode fp nd v).ast.blockingFunctions := by
          rw [p01_enterNode_blocking]
          exact hx
        have hx2 := p01_callSiteStep_mono n nd _ _ _ _ h0 x hx1
        exact visitListF_pred (P01.visit fp n)
          (fun a b => ∀ x ∈ a.ast.blockingFunctions, x ∈ b.ast.blockingFunctions)
          (fun _ _ hxx => hxx) (fun a b c hab hbc x hxx => hbc x (hab x hxx))
          (ih) nd.children _ _ h1 x hx2

theorem p01_analyzeSourceFile_mono (fuel : Nat) (fp : String)
    (body : List Analyzer.Node) (st : P01.AState)
    (r : P01.AState × List String)
    (h : P01.analyzeSourceFile fuel fp body st = some r) :
    ∀ x ∈ st.blockingFunctions, x ∈ r.1.blockingFunctions := by
  unfold P01.analyzeSourceFile at h
  cases h1 : Analyzer.visitListF (P01.visit fp fuel) body ⟨st, [], none⟩ with
  | none => rw [h1] at h; cases h
  | some v =>
    rw [h1] at h
    cases h
    exact visitListF_pred (P01.visit fp fuel)
      (fun a b => ∀ x ∈ a.ast.blockingFunctions, x ∈ b.ast.blockingFunctions)
      (fun _ _ hxx => hxx) (fun a b c hab hbc x hxx => hbc x (hab x hxx))
      (fun nd v v' hv => p01_visit_mono fp fuel nd v v' hv) body _ _ h1

theorem p01_importLoopF_mono
    (rec : String → List String → P01.AState →
      Option (List String × List String × P01.AState))
    (hrec : ∀ p visited st r, rec p visited st = some r →
      ∀ x ∈ st.blockingFunctions, x ∈ r.2.2.blockingFunctions)
    (absolutePath : String) :
    ∀ (imports : List String) (visited : List String) (st : P01.AState)
      (r : List String × P01.AState),
      P01.importLoopF rec absolutePath imports visited st = some r →
      ∀ x ∈ st.blockingFunctions, x ∈ r.2.blockingFunctions := by
  intro imports
  induction imports with
  | nil =>
    intro visited st r h
    rw [P01.importLoopF] at h
    cases h
    exact fun x hx => hx
  | cons src rest ih =>
    intro visited st r h
    rw [P01.importLoopF] at h
    by_cases hs : strStartsWith src "." = true
    · rw [if_pos hs] at h
      simp only at h
      cases h0 : rec (Analyzer.normalizeImportPath src absolutePath) visited st with
      | none => rw [h0] at h; cases h
      | some r1 =>
        rw [h0] at h
        obtain ⟨bf1, visited1, st1⟩ := r1
        exact fun x hx => ih visited1 st1 r h x (hrec _ _ _ _ h0 x hx)
    · rw [if_neg hs] at h
      exact ih visited st r h

theorem p01_analyzeFile_mono :
    ∀ (n : Nat) (env : String → Option P01.ModuleSrc) (p : String)
      (visited : List String) (st : P01.AState)
      (r : List String × List String × P01.AState),
      P01.analyzeFile env n p visited st = some r →
      ∀ x ∈ st.blockingFunctions, x ∈ r.2.2.blockingFunctions := by
  intro n
  induction n with
  | zero => intro env p visited st r h; cases h
  | succ n ih =>
    intro env p visited st r h
    rw [P01.analyzeFile] at h
    by_cases hv : p ∈ visited
    · rw [if_pos hv] at h
      cases h
      exact fun x hx => hx
    · rw [if_neg hv] at h
      cases he : env p with
      | none =>
        rw [he] at h
        cases h
        exact fun x hx => hx
      | some m =>
        rw [he] at h
        simp only at h
        cases h0 : P01.importLoopF (P01.analyzeFile env n) p m.imports
            (p :: visited) st with
        | none => rw [h0] at h; cases h
        | some r1 =>
          rw [h0] at h
          obtain ⟨visited1, st1⟩ := r1
          simp only at h
          cases h1 : P01.analyzeSourceFile n p m.body st1 with
          | none => rw [h1] at h; cases h
          | some r2 =>
            rw [h1] at h
            obtain ⟨st2, bf2⟩ := r2
            simp only at h
            cases h
            intro x hx
            have hx1 := p01_importLoopF_mono (P01.analyzeFile env n)
              (fun q w s rr hh => ih env q w s rr hh) p m.imports
              (p :: visited) st _ h0 x hx
            exact p01_analyzeSourceFile_mono n p m.body st1 _ h1 x hx1

/-! ## Claim theorems: C3, C4, C8, C9 -/

/-- **C3.**  Monotonicity of the Blocking Set within one run: every embedded
operation only adds names — `markAsBlocking` of `src/analyzer.ts`, call-edge
recording (`addFunctionCall` leaves the blocking set untouched), the
`analyzeSourceFile` visitor, the `propagateBlockingStatus` fixed-point loop,
the memoizing query of `src/plugin.ts`, the guarded `markAsBlocking` and the
whole `analyzeFile` traversal of `part_000`/`part_001`.  Once a name is in
the set it stays there for the remainder of the run. -/
theorem claim_C3_blocking_monotone :
    (∀ (n : Nat) (f : String) (st st' : Analyzer.AState),
      Analyzer.markAsBlocking n f st = some st' →
      ∀ x ∈ st.blockingFunctions, x ∈ st'.blockingFunctions) ∧
    (∀ (caller callee : String) (st : Analyzer.AState),
      (Analyzer.addFunctionCall caller callee st).blockingFunctions =
        st.blockingFunctions) ∧
    (∀ (fuel : Nat) (nd : Analyzer.Node) (v v' : Analyzer.VState),
      Analyzer.visit fuel nd v = some v' →
      ∀ x ∈ v.ast.blockingFunctions, x ∈ v'.ast.blockingFunctions) ∧
    (∀ (n : Nat) (st : EslintConfig.PState),
      st.blockingFunctions ⊆ (EslintConfig.propagateN n st).1.blockingFunctions) ∧
    (∀ (n : Nat) (name : String) (vis : List String) (st : PluginTs.GState)
      (r : Bool × PluginTs.GState × List String),
      PluginTs.isBlockingFunction n name vis st = some r →
      ∀ x ∈ st.blockingFunctions, x ∈ r.2.1.blockingFunctions) ∧
    (∀ (n : Nat) (f : String) (st : P01.AState) (vis : Finset String)
      (r : P01.AState × Finset String),
      P01.markAsBlocking n f st vis = some r →
      ∀ x ∈ st.blockingFunctions, x ∈ r.1.blockingFunctions) ∧
    (∀ (n : Nat) (env : String → Option P01.ModuleSrc) (p : String)
      (visited : List String) (st : P01.AState)
      (r : List String × List String × P01.AState),
      P01.analyzeFile env n p visited st = some r →
      ∀ x ∈ st.blockingFunctions, x ∈ r.2.2.blockingFunctions) := by
  refine ⟨analyzer_mark_mono, addFunctionCall_blocking, analyzer_visit_mono,
    ?_, ?_, ?_, ?_⟩
  · intro n st
    exact propagateN_mono n st
  · intro n name vis st r h
    exact (plugin_isBlocking_qpres n name vis st r h).2.2.2
  · intro n f st vis r h
    exact (p01_mark_pres n f st vis r h).2.2.2.1
  · intro n env p visited st r h
    exact p01_analyzeFile_mono n env p visited st r h

/-- Witness for C3: the already-blocking name `z` survives a concrete
`markAsBlocking` call that adds `b`. -/
theorem claim_C3_witness :
    "z" ∈ (Analyzer.AState.mk ["z", "b"] [("q", ["r"])]).blockingFunctions :=
  claim_C3_blocking_monotone.1 3 "b" ⟨["z"], [("q", ["r"])]⟩
    ⟨["z", "b"], [("q", ["r"])]⟩ (by decide) "z" (by decide)

/-- **C4, amended.**  `isBlockingFunction` of `src/analyzer.ts` is pure set
membership and, by its type, touches no state.  The `isBlockingFunction` of
`src/plugin.ts` is NOT pure membership: it may recurse through the import
map and call graph at query time and memoizes positive answers into the
Blocking Set — but it changes no other state component, only ever adds to
the Blocking Set, and for a name already in the set it answers `true`
leaving the whole state unchanged. -/
theorem claim_C4_query_behavior :
    (∀ (st : Analyzer.AState) (name : String),
      Analyzer.isBlockingFunction st name = true ↔
        name ∈ st.blockingFunctions) ∧
    (∀ (n : Nat) (name : String) (vis : List String) (st : PluginTs.GState)
      (r : Bool × PluginTs.GState × List String),
      PluginTs.isBlockingFunction n name vis st = some r →
      PluginTs.QPres st r) ∧
    (∀ (n : Nat) (name : String) (vis : List String) (st : PluginTs.GState),
      ¬ name ∈ vis → name ∈ st.blockingFunctions →
      PluginTs.isBlockingFunction (n + 1) name vis st =
        some (true, st, insertName name vis)) := by
  refine ⟨?_, plugin_isBlocking_qpres, ?_⟩
  · intro st name
    unfold Analyzer.isBlockingFunction
    exact decide_eq_true_iff
  · intro n name vis st hv hb
    rw [PluginTs.isBlockingFunction]
    rw [if_neg hv, if_pos hb]

/-- Witness for C4: querying the already-blocking `f` on `c8State` answers
`true` without touching the state. -/
theorem claim_C4_witness :
    PluginTs.isBlockingFunction 3 "f" [] c8State =
      some (true, c8State, ["f"]) :=
  claim_C4_query_behavior.2.2 2 "f" [] c8State (by decide) (by decide)

/-- **C8.**  The `CallExpression` handler of `src/plugin.ts` reports a
diagnostic only when the nearest enclosing `FunctionDeclaration` of the call
site is `async` (and named); when the nearest enclosing function declaration
is not async it reports nothing and leaves the state untouched — even for a
direct `Deno.*Sync` call whose enclosing function is already in the Blocking
Set, as the concrete instance shows. -/
theorem claim_C8_report_only_in_async :
    (∀ (fuel : Nat) (anc : List PluginTs.ENode) (callee : PluginTs.ECallee)
      (st : PluginTs.GState) (r : Bool × PluginTs.GState),
      PluginTs.callExpressionHandler fuel anc callee st = some r →
      r.1 = true →
      ∃ nm, PluginTs.findFnDecl anc = some (true, some nm)) ∧
    (∀ (fuel : Nat) (anc : List PluginTs.ENode) (callee : PluginTs.ECallee)
      (st : PluginTs.GState) (nm : Option String),
      PluginTs.findFnDecl anc = some (false, nm) →
      PluginTs.callExpressionHandler fuel anc callee st = some (false, st)) ∧
    (PluginTs.callExpressionHandler 5
        [PluginTs.ENode.otherN, PluginTs.ENode.fnDecl false (some "f")]
        (PluginTs.ECallee.memberE "Deno" "readFileSync") c8State =
      some (false, c8State) ∧
     "f" ∈ c8State.blockingFunctions) := by
  refine ⟨?_, ?_, by decide, by decide⟩
  · intro fuel anc callee st r h hr
    unfold PluginTs.callExpressionHandler at h
    cases hf : PluginTs.findFnDecl anc with
    | none =>
      rw [hf] at h
      cases h
      cases hr
    | some p =>
      obtain ⟨flag, nmO⟩ := p
      cases flag with
      | false =>
        rw [hf] at h
        simp only at h
        cases h
        cases hr
      | true =>
        cases nmO with
        | none =>
          rw [hf] at h
          simp only at h
          cases h
          cases hr
        | some nm => exact ⟨nm, rfl⟩
  · intro fuel anc callee st nm hf
    unfold PluginTs.callExpressionHandler
    rw [hf]

/-- Witness for C8: the non-async clause applied at a concrete ancestor
chain. -/
theorem claim_C8_witness :
    PluginTs.callExpressionHandler 4 [PluginTs.ENode.fnDecl false none]
      (PluginTs.ECallee.identE "f") c8State = some (false, c8State) :=
  claim_C8_report_only_in_async.2.1 4 [PluginTs.ENode.fnDecl false none]
    (PluginTs.ECallee.identE "f") c8State none (by decide)

/-- **C9, amended.**  `normalizeImportPath` of `src/analyzer.ts` (also
`src/plugin.ts`, `part_000`, `part_001`): non-relative specifiers are
returned unchanged; a relative specifier is resolved against the directory
of the importing module, kept as-is when the resolved path already has a
file extension (the `/\.[^/.]+$/` test), and given `.ts` exactly when it has
none.  The `src/eslint.config.ts` / `part_003` variant instead appends `.ts`
whenever the resolved path does not end in `.ts` (see the counterexample for
a path with a different extension); its good cases agree, as the last
conjunct shows. -/
theorem claim_C9_import_resolution :
    (∀ spec cf : String, strStartsWith spec "." = false →
      Analyzer.normalizeImportPath spec cf = spec) ∧
    (∀ spec cf : String, strStartsWith spec "." = true →
      Analyzer.extMatch
        (Analyzer.resolveRel (Analyzer.dirnamePosix cf) spec) = true →
      Analyzer.normalizeImportPath spec cf =
        Analyzer.resolveRel (Analyzer.dirnamePosix cf) spec) ∧
    (∀ spec cf : String, strStartsWith spec "." = true →
      Analyzer.extMatch
        (Analyzer.resolveRel (Analyzer.dirnamePosix cf) spec) = false →
      Analyzer.normalizeImportPath spec cf =
        Analyzer.resolveRel (Analyzer.dirnamePosix cf) spec ++ ".ts") ∧
    (Analyzer.normalizeImportPath "./lib/util" "/proj/src/main.ts" =
        "/proj/src/lib/util.ts" ∧
     Analyzer.normalizeImportPath "../a.js" "/p/s/m.ts" = "/p/a.js" ∧
     Analyzer.normalizeImportPath "jsr:@std/path" "/p/s/m.ts" =
        "jsr:@std/path" ∧
     EslintConfig.normalizeImportPath "./b" "/dir/a.ts" = "/dir/b.ts") := by
  refine ⟨?_, ?_, ?_, by decide, by decide, by decide, by decide⟩
  · intro spec cf h
    unfold Analyzer.normalizeImportPath
    rw [h]
    rfl
  · intro spec cf h h2
    unfold Analyzer.normalizeImportPath
    rw [h]
    simp only [Bool.not_true, Bool.false_eq_true, if_false]
    rw [if_pos h2]
  · intro spec cf h h2
    unfold Analyzer.normalizeImportPath
    rw [h]
    simp only [Bool.not_true, Bool.false_eq_true, if_false]
    rw [if_neg (by rw [h2]; exact Bool.false_ne_true)]

/-- Witness for C9: the keep-extension clause at a concrete relative
specifier. -/
theorem claim_C9_witness :
    Analyzer.normalizeImportPath "./c.js" "/d/a.ts" =
      Analyzer.resolveRel (Analyzer.dirnamePosix "/d/a.ts") "./c.js" :=
  claim_C9_import_resolution.2.1 "./c.js" "/d/a.ts" (by decide) (by decide)
